import Mathlib

set_option maxRecDepth 100000

/-!
Verification development for the `cof` package: a decoder for the
Diablo II `AnimData.d2` animation-metadata format (`animdata.go`) and a
decoder/encoder for COF composite-object files (`cof.go`, `cof_layer.go`).

Byte buffers are modelled as `List Nat` whose entries are byte values
(`< 256`); machine integers are `Nat`/`Int` with explicit `% 256` where the
Go code performs a byte conversion.  The sequential bit/byte cursor of the
`gravestench/bitstream` dependency is modelled at byte granularity (every
read performed by this package is a whole number of bytes), with `remaining`
holding the unconsumed suffix and `pos` the consumed byte count, matching
the cursor contract: `Next(n)` consumes exactly n bytes and fails when fewer
remain, `Position()` is the current byte offset.
-/

namespace Cof

/-- Sequential byte cursor over an in-memory buffer (`bitstream.Reader`). -/
structure BReader where
  remaining : List Nat
  pos : Nat
deriving DecidableEq

/-- A fresh reader over `data` (`bitstream.NewReader().FromBytes(data...)`). -/
def BReader.init (data : List Nat) : BReader := ⟨data, 0⟩

/-- Read the next `n` bytes; fails (returns `none`) when fewer than `n`
bytes remain, mirroring the cursor's out-of-data condition. -/
def readBytes (r : BReader) (n : Nat) : Option (List Nat × BReader) :=
  if n ≤ r.remaining.length then
    some (r.remaining.take n, ⟨r.remaining.drop n, r.pos + n⟩)
  else
    none

/-- Little-endian value of a 4-byte field (`AsUInt32` at a byte-aligned
position). -/
def asUInt32LE (b : List Nat) : Nat :=
  b.getD 0 0 + 256 * b.getD 1 0 + 65536 * b.getD 2 0 + 16777216 * b.getD 3 0

/-- Little-endian value of a 2-byte field (`AsUInt16` at a byte-aligned
position). -/
def asUInt16LE (b : List Nat) : Nat :=
  b.getD 0 0 + 256 * b.getD 1 0

/-- Constant `numBlocks` from `animdata.go`. -/
def numBlocks : Nat := 256

/-- Constant `maxRecordsPerBlock` from `animdata.go`. -/
def maxRecordsPerBlock : Nat := 67

/-- Constant `byteCountName` from `animdata.go`. -/
def byteCountName : Nat := 8

/-- Constant `byteCountSpeedPadding` from `animdata.go`. -/
def byteCountSpeedPadding : Nat := 2

/-- Constant `numEvents` from `animdata.go`. -/
def numEvents : Nat := 144

/-- Frame-event code (`FrameEvent` is an integer enumeration; a decoded
byte is cast directly, so it is modelled by its numeric code). -/
abbrev FrameEvent := Nat

/-- Constant `EventNone` (first enumerator, value 0). -/
def EventNone : FrameEvent := 0

/-- One animation record.  Modelled from the spec: the struct declaration
itself is outside `src/`, but its fields are fixed by the positional
literal in `Load` (`{name, frames, speed, events}`) and §3 of the spec:
canonical name (bytes, zero padding stripped), 32-bit frame count, 16-bit
speed, and a sparse frame-index→event map (only non-`none` events kept),
modelled as an ordered association list. -/
structure AnimationDataRecord where
  name : List Nat
  framesPerDirection : Nat
  speed : Nat
  events : List (Nat × FrameEvent)
deriving DecidableEq

/-- One bucket of the 256-bucket table.  Modelled from the spec: the
`block` struct declaration is outside `src/`; its fields are fixed by the
positional literal `{recordCount, records}` in `Load`. -/
structure block where
  recordCount : Nat
  records : List AnimationDataRecord
deriving DecidableEq

/-- Modelled from the spec: `hashName` lives outside `src/`; the spec only
requires a deterministic pure hash of the canonical name (same name, same
hash; hashing never fails).  Modelled as the byte sum modulo 256, matching
the direct-address bucket scheme (bucket index = hash mod bucket count). -/
def hashName (name : List Nat) : Nat :=
  name.foldl (fun a b => (a + b) % 256) 0

/-- Decoded animation-metadata store (`AnimationData`).  The embedded
`hashTable` journal is modelled from the spec as a fixed-size array of
`numBlocks * maxRecordsPerBlock` slots (the journal is "sized to the
format's maximum theoretical record count"), zero-initialised; the Go map
`entries` is modelled as an insertion-ordered association list. -/
structure AnimationData where
  hashTable : List Nat
  blocks : List block
  entries : List (List Nat × List AnimationDataRecord)
deriving DecidableEq

/-- Association-list lookup for the `entries` map. -/
def lookupEntries (m : List (List Nat × List AnimationDataRecord)) (k : List Nat) :
    Option (List AnimationDataRecord) :=
  match m with
  | [] => none
  | (k', v) :: rest => if k' = k then some v else lookupEntries rest k

/-- The append step performed for each decoded record: create the key's
list on first sight, then append the record to it (`Load`, lines 131–135). -/
def entriesAppend (m : List (List Nat × List AnimationDataRecord)) (k : List Nat)
    (r : AnimationDataRecord) : List (List Nat × List AnimationDataRecord) :=
  match m with
  | [] => [(k, [r])]
  | (k', v) :: rest =>
    if k' = k then (k', v ++ [r]) :: rest else (k', v) :: entriesAppend rest k r

/-- `AnimationData.GetRecords`: the Go map lookup yields the nil (empty)
slice for an absent key. -/
def GetRecords (ad : AnimationData) (name : List Nat) : List AnimationDataRecord :=
  (lookupEntries ad.entries name).getD []

/-- `AnimationData.GetRecord`: `nil` (here `none`) when no record has the
name, otherwise the last entry of the list. -/
def GetRecord (ad : AnimationData) (name : List Nat) : Option AnimationDataRecord :=
  (GetRecords ad name).getLast?

/-- All records of a store in file-read order (buckets in order, records in
order within each bucket). -/
def allRecords (ad : AnimationData) : List AnimationDataRecord :=
  ad.blocks.flatMap (·.records)

/-- Error taxonomy of `Load`: bitstream out-of-data, the "more than 67
records in block" error, the "missing null terminator byte" error, and the
trailing-data "unable to parse animation data" error. -/
inductive ErrKind where
  | truncated
  | malformedBucket
  | missingTerminator
  | unableToParse
deriving DecidableEq

instance {ε α : Type} [DecidableEq ε] [DecidableEq α] : DecidableEq (Except ε α) :=
  fun a b =>
    match a, b with
    | .error e, .error e' =>
      if h : e = e' then isTrue (by rw [h]) else isFalse (fun hh => by cases hh; exact h rfl)
    | .error _, .ok _ => isFalse (fun hh => by cases hh)
    | .ok _, .error _ => isFalse (fun hh => by cases hh)
    | .ok x, .ok y =>
      if h : x = y then isTrue (by rw [h]) else isFalse (fun hh => by cases hh; exact h rfl)

/-- Mutable state threaded through `Load`: the cursor, the journal index
`hashIdx` (the source declares it, initialises it to 0 and never
increments it), the journal, the entries map and the buckets decoded so
far. -/
structure LoadState where
  reader : BReader
  hashIdx : Nat
  hashTable : List Nat
  entries : List (List Nat × List AnimationDataRecord)
  blocks : List block
deriving DecidableEq

/-- Lift a cursor read into the `Load` error monad. -/
def readBytesE (r : BReader) (n : Nat) : Except ErrKind (List Nat × BReader) :=
  match readBytes r n with
  | none => .error .truncated
  | some x => .ok x

/-- The 144-iteration event loop of `Load` (lines 110–120): read one byte
per potential frame slot, keeping only slots whose code is not
`EventNone`. -/
def loadEvents : Nat → Nat → BReader → List (Nat × FrameEvent) →
    Except ErrKind (List (Nat × FrameEvent) × BReader)
  | _, 0, r, acc => .ok (acc, r)
  | idx, n + 1, r, acc =>
    match readBytes r 1 with
    | none => .error .truncated
    | some (bs, r') =>
      let b := bs.getD 0 0
      loadEvents (idx + 1) n r' (if b ≠ EventNone then acc ++ [(idx, b)] else acc)

/-- Decode one record (`Load`, lines 79–135): 8-byte name field whose last
byte must be a zero terminator, zero bytes stripped to obtain the canonical
name, journal write at `hashIdx` (never advanced by the source), 32-bit
frame count, 16-bit speed, 2 discarded padding bytes, 144 event bytes, then
the entries-map append. -/
def loadRecord (st : LoadState) : Except ErrKind (AnimationDataRecord × LoadState) :=
  match readBytes st.reader byteCountName with
  | none => .error .truncated
  | some (nameBytes, r1) =>
    if nameBytes.getD (byteCountName - 1) 0 ≠ 0 then .error .missingTerminator
    else
      let name := nameBytes.filter (fun b => b ≠ 0)
      let ht := st.hashTable.set st.hashIdx (hashName name)
      match readBytes r1 4 with
      | none => .error .truncated
      | some (framesBytes, r2) =>
        match readBytes r2 2 with
        | none => .error .truncated
        | some (speedBytes, r3) =>
          match readBytes r3 byteCountSpeedPadding with
          | none => .error .truncated
          | some (_, r4) =>
            match loadEvents 0 numEvents r4 [] with
            | .error e => .error e
            | .ok (events, r5) =>
              let rec_ : AnimationDataRecord :=
                ⟨name, asUInt32LE framesBytes, asUInt16LE speedBytes, events⟩
              .ok (rec_, { st with
                reader := r5
                hashTable := ht
                entries := entriesAppend st.entries name rec_ })

/-- Decode `n` records in sequence, returning them in decode order. -/
def loadRecords : Nat → LoadState →
    Except ErrKind (List AnimationDataRecord × LoadState)
  | 0, st => .ok ([], st)
  | n + 1, st =>
    match loadRecord st with
    | .error e => .error e
    | .ok (r, st1) =>
      match loadRecords n st1 with
      | .error e => .error e
      | .ok (rs, st2) => .ok (r :: rs, st2)

/-- Decode one bucket (`Load`, lines 68–143): 32-bit record count, the
`maxRecordsPerBlock` guard, the record loop, then the bucket append. -/
def loadBlock (st : LoadState) : Except ErrKind LoadState :=
  match readBytes st.reader 4 with
  | none => .error .truncated
  | some (cb, r1) =>
    let recordCount := asUInt32LE cb
    if recordCount > maxRecordsPerBlock then .error .malformedBucket
    else
      match loadRecords recordCount { st with reader := r1 } with
      | .error e => .error e
      | .ok (records, st2) =>
        .ok { st2 with blocks := st2.blocks ++ [⟨recordCount, records⟩] }

/-- Decode `n` buckets in sequence. -/
def loadBlocks : Nat → LoadState → Except ErrKind LoadState
  | 0, st => .ok st
  | n + 1, st =>
    match loadBlock st with
    | .error e => .error e
    | .ok st1 => loadBlocks n st1

/-- Initial `Load` state over `data`. -/
def initLoadState (data : List Nat) : LoadState :=
  ⟨BReader.init data, 0, List.replicate (numBlocks * maxRecordsPerBlock) 0, [], []⟩

/-- `Load` (`animdata.go`, lines 60–151): decode all 256 buckets, then
require the cursor position to equal the input length exactly. -/
def Load (data : List Nat) : Except ErrKind AnimationData :=
  match loadBlocks numBlocks (initLoadState data) with
  | .error e => .error e
  | .ok st =>
    if st.reader.pos ≠ data.length then .error .unableToParse
    else .ok ⟨st.hashTable, st.blocks, st.entries⟩

/-! ## Composite Object (COF) files, `cof.go` / `cof_layer.go` -/

/-- Constant `numUnknownHeaderBytes` from `cof.go`. -/
def numUnknownHeaderBytes : Nat := 21

/-- Constant `numUnknownBodyBytes` from `cof.go`. -/
def numUnknownBodyBytes : Nat := 3

/-- Constant `numHeaderBytes` from `cof.go` (`4 + numUnknownHeaderBytes`). -/
def numHeaderBytes : Nat := 4 + numUnknownHeaderBytes

/-- Constant `numLayerBytes` from `cof.go`. -/
def numLayerBytes : Nat := 9

/-- Header byte position `headerNumLayers`. -/
def headerNumLayers : Nat := 0

/-- Header byte position `headerFramesPerDir`. -/
def headerFramesPerDir : Nat := 1

/-- Header byte position `headerNumDirs`. -/
def headerNumDirs : Nat := 2

/-- Header byte position `headerSpeed` (`numHeaderBytes - 1`). -/
def headerSpeed : Nat := numHeaderBytes - 1

/-- Layer byte position `layerType`. -/
def layerType : Nat := 0

/-- Layer byte position `layerShadow`. -/
def layerShadow : Nat := 1

/-- Layer byte position `layerSelectable`. -/
def layerSelectable : Nat := 2

/-- Layer byte position `layerTransparent`. -/
def layerTransparent : Nat := 3

/-- Layer byte position `layerDrawEffect`. -/
def layerDrawEffect : Nat := 4

/-- Layer byte position `layerWeaponClass`. -/
def layerWeaponClass : Nat := 5

/-- Composite-layer type code.  Modelled from the spec: `CompositeType`
is an opaque integer code enumeration declared outside `src/`; decoded
bytes are cast to it directly, so it is modelled by the numeric code. -/
abbrev CompositeType := Nat

/-- Draw-effect code.  Modelled from the spec: `DrawEffect` is an opaque
integer code enumeration declared outside `src/`. -/
abbrev DrawEffect := Nat

/-- Weapon-class code.  Modelled from the spec: `WeaponClass` and its
string⟷code maps live outside `src/`; the spec treats it as an opaque
enumeration keyed by a short ASCII code with a string-to-code and
code-to-string mapping, so it is modelled by the code itself (as a byte
string), making the two maps the identity. -/
abbrev WeaponClass := List Nat

/-- Modelled from the spec: the string-to-code map `WeaponClassFromString`
(outside `src/`), identity on the modelled code. -/
def WeaponClassFromString (s : List Nat) : WeaponClass := s

/-- Modelled from the spec: the code-to-string map `WeaponClass.String()`
(outside `src/`), identity on the modelled code. -/
def weaponClassCode (w : WeaponClass) : List Nat := w

/-- ASCII whitespace bytes stripped by `strings.TrimSpace` (the Go
function trims Unicode space; on the ASCII codes this package deals in the
two agree). -/
def isSpaceByte (b : Nat) : Bool :=
  b = 9 || b = 10 || b = 11 || b = 12 || b = 13 || b = 32

/-- `strings.TrimSpace` on a byte string. -/
def trimSpaceBytes (l : List Nat) : List Nat :=
  ((l.dropWhile isSpaceByte).reverse.dropWhile isSpaceByte).reverse

/-- `CofLayer` (`cof_layer.go`): one layer descriptor.  The source field
`Type` is a Lean keyword and is rendered `typ`. -/
structure CofLayer where
  typ : CompositeType
  shadow : Nat
  selectable : Bool
  transparent : Bool
  drawEffect : DrawEffect
  weaponClass : WeaponClass
deriving DecidableEq

/-- The zero value a `make([]CofLayer, n)` slot holds before
`loadCOFLayers` assigns it. -/
def defaultCofLayer : CofLayer := ⟨0, 0, false, false, 0, []⟩

/-- `COF` (`cof.go`): the composite-object document.  The Go `int` fields
are modelled as `Int`; the `map[CompositeType]int` as an association
list updated in place. -/
structure COF where
  unknownHeaderBytes : List Nat
  unknownBodyBytes : List Nat
  NumberOfDirections : Int
  FramesPerDirection : Int
  NumberOfLayers : Int
  Speed : Int
  CofLayers : List CofLayer
  CompositeLayers : List (CompositeType × Nat)
  AnimationFrames : List FrameEvent
  Priority : List (List (List CompositeType))
deriving DecidableEq

/-- `New` (`cof.go`): a zero-valued document with empty containers. -/
def New : COF :=
  { unknownHeaderBytes := List.replicate numUnknownHeaderBytes 0
  , unknownBodyBytes := List.replicate numUnknownBodyBytes 0
  , NumberOfDirections := 0
  , FramesPerDirection := 0
  , NumberOfLayers := 0
  , Speed := 0
  , CofLayers := []
  , CompositeLayers := []
  , AnimationFrames := []
  , Priority := [] }

/-- Go map assignment `m[k] = v`: replace the entry in place when the key
is present, insert otherwise. -/
def mapUpdate (m : List (CompositeType × Nat)) (k : CompositeType) (v : Nat) :
    List (CompositeType × Nat) :=
  match m with
  | [] => [(k, v)]
  | (k', v') :: rest =>
    if k' = k then (k, v) :: rest else (k', v') :: mapUpdate rest k v

/-- Lookup in the `CompositeLayers` map. -/
def lookupCT (m : List (CompositeType × Nat)) (k : CompositeType) : Option Nat :=
  match m with
  | [] => none
  | (k', v) :: rest => if k' = k then some v else lookupCT rest k

/-- `COF.loadHeader`: positions 0/1/2 are the layer, frame and direction
counts, positions 3..23 the opaque header bytes, position 24 the speed. -/
def loadHeader (c : COF) (b : List Nat) : COF :=
  { c with
    NumberOfLayers := Int.ofNat (b.getD headerNumLayers 0)
    FramesPerDirection := Int.ofNat (b.getD headerFramesPerDir 0)
    NumberOfDirections := Int.ofNat (b.getD headerNumDirs 0)
    unknownHeaderBytes := (b.drop (headerNumDirs + 1)).take (headerSpeed - (headerNumDirs + 1))
    Speed := Int.ofNat (b.getD headerSpeed 0) }

/-- Build one `CofLayer` from a 9-byte descriptor (`loadCOFLayers` body):
flags are non-zero tests, the weapon-class field is the tail from byte 5,
zero bytes removed, whitespace trimmed, then mapped through
`WeaponClassFromString`. -/
def mkLayer (b : List Nat) : CofLayer :=
  { typ := b.getD layerType 0
  , shadow := b.getD layerShadow 0
  , selectable := b.getD layerSelectable 0 > 0
  , transparent := b.getD layerTransparent 0 > 0
  , drawEffect := b.getD layerDrawEffect 0
  , weaponClass :=
      WeaponClassFromString (trimSpaceBytes ((b.drop layerWeaponClass).filter (fun x => x ≠ 0))) }

/-- The layer loop of `COF.loadCOFLayers`: read 9 bytes per layer, store
the layer at index `i`, and set `CompositeLayers[type] = i`.  On a short
read the partially updated document is kept (the Go method mutates its
receiver) and `none` marks the error. -/
def loadCOFLayersGo : Nat → Nat → COF → BReader → COF × Option BReader
  | 0, _, c, r => (c, some r)
  | n + 1, i, c, r =>
    match readBytes r numLayerBytes with
    | none => (c, none)
    | some (b, r') =>
      let layer := mkLayer b
      loadCOFLayersGo n (i + 1)
        { c with
          CofLayers := c.CofLayers.set i layer
          CompositeLayers := mapUpdate c.CompositeLayers layer.typ i } r'

/-- `COF.loadAnimationFrames`: a length-`framesPerDirection` event table
filled from the bytes just read. -/
def loadAnimationFrames (nf : Nat) (b : List Nat) : List FrameEvent :=
  (List.range nf).map (fun i => b.getD i 0)

/-- `COF.loadPriority`: the priority matrix, direction-major, then frame,
then layer-slot.  The source advances a single `priorityIndex` once per
written cell, so cell `(d, f, i)` reads `priorityBytes[(d*nf+f)*nl + i]`;
each frame row is the corresponding contiguous slice. -/
def loadPriority (nd nf nl : Nat) (pb : List Nat) : List (List (List CompositeType)) :=
  (List.range nd).map fun direction =>
    (List.range nf).map fun frame =>
      (pb.drop ((direction * nf + frame) * nl)).take nl

/-- `COF.Unmarshal` as the Go method behaves: it mutates the receiver
step by step and reports success or failure, leaving all updates made
before a failing read in place. -/
def unmarshalM (c0 : COF) (fileData : List Nat) : COF × Bool :=
  let stream := BReader.init fileData
  match readBytes stream numHeaderBytes with
  | none => (c0, false)
  | some (headerBytes, s1) =>
    let c1 := loadHeader c0 headerBytes
    match readBytes s1 numUnknownBodyBytes with
    | none => (c1, false)
    | some (bodyBytes, s2) =>
      let c2 := { c1 with
        unknownBodyBytes := bodyBytes
        CofLayers := List.replicate c1.NumberOfLayers.toNat defaultCofLayer
        CompositeLayers := [] }
      match loadCOFLayersGo c2.NumberOfLayers.toNat 0 c2 s2 with
      | (c3, none) => (c3, false)
      | (c3, some s3) =>
        match readBytes s3 c3.FramesPerDirection.toNat with
        | none => (c3, false)
        | some (animationFramesData, s4) =>
          let c4 := { c3 with
            AnimationFrames :=
              loadAnimationFrames c3.FramesPerDirection.toNat animationFramesData }
          let priorityLen :=
            (c4.FramesPerDirection * c4.NumberOfDirections * c4.NumberOfLayers).toNat
          let c5 := { c4 with Priority := List.replicate c4.NumberOfDirections.toNat [] }
          match readBytes s4 priorityLen with
          | none => (c5, false)
          | some (priorityBytes, _) =>
            ({ c5 with
                Priority := loadPriority c5.NumberOfDirections.toNat
                  c5.FramesPerDirection.toNat c5.NumberOfLayers.toNat priorityBytes },
              true)

/-- Package-level `Unmarshal` (`cof.go`, lines 82–87): build a fresh
document with `New`, run the method on it, and hand back the document
together with the error — also when decoding failed. -/
def Unmarshal (data : List Nat) : COF × Bool :=
  unmarshalM New data

/-- The successful-decode view of `Unmarshal` (`decodeComposite` in the
spec): the document only when no error occurred. -/
def decodeComposite (data : List Nat) : Option COF :=
  match Unmarshal data with
  | (c, true) => some c
  | (_, false) => none

/-- Go `byte(x)` on an `int`: the low 8 bits, i.e. `x` modulo 256. -/
def intToByte (x : Int) : Nat := (x % 256).toNat

/-- The per-layer emission of `COF.Marshal` (lines 218–252): five single
bytes, then the weapon-class code — the `range` loop breaks once `idx`
exceeds `maxCodeLength = 3`, so the first `min(length, 4)` characters are
written — then the zero terminator. -/
def marshalLayer (l : CofLayer) : List Nat :=
  [l.typ % 256, l.shadow, if l.selectable then 1 else 0,
   if l.transparent then 1 else 0, l.drawEffect % 256]
  ++ (weaponClassCode l.weaponClass).take 4 ++ [0]

/-- The priority emission of `COF.Marshal` (lines 258–264): direction,
frame, then layer slot, each cell cast to a byte. -/
def marshalPriority (c : COF) : List Nat :=
  (List.range c.NumberOfDirections.toNat).flatMap fun direction =>
    (List.range c.FramesPerDirection.toNat).flatMap fun frame =>
      (List.range c.NumberOfLayers.toNat).map fun i =>
        (((c.Priority.getD direction []).getD frame []).getD i 0) % 256

/-- `COF.Marshal` (lines 208–267): header counts and speed cast to single
bytes, opaque regions verbatim, the layers, the event table, then the
priority matrix. -/
def Marshal (c : COF) : List Nat :=
  intToByte c.NumberOfLayers :: intToByte c.FramesPerDirection ::
    intToByte c.NumberOfDirections ::
      (c.unknownHeaderBytes ++ intToByte c.Speed ::
        (c.unknownBodyBytes ++
          ((c.CofLayers.map marshalLayer).flatten ++
            (c.AnimationFrames.map (fun e => e % 256) ++ marshalPriority c))))

/-! ## General list facts used throughout -/

theorem getD_take_of_lt {α : Type} (l : List α) (n i : Nat) (d : α) (h : i < n) :
    (l.take n).getD i d = l.getD i d := by
  rw [List.getD_eq_getElem?_getD, List.getD_eq_getElem?_getD, List.getElem?_take]
  simp [h]

theorem getD_drop {α : Type} (l : List α) (n i : Nat) (d : α) :
    (l.drop n).getD i d = l.getD (n + i) d := by
  rw [List.getD_eq_getElem?_getD, List.getD_eq_getElem?_getD, List.getElem?_drop]

theorem getD_set_ne {α : Type} (l : List α) (i j : Nat) (a d : α) (h : i ≠ j) :
    (l.set i a).getD j d = l.getD j d := by
  rw [List.getD_eq_getElem?_getD, List.getD_eq_getElem?_getD, List.getElem?_set_ne h]

theorem getD_set_self {α : Type} (l : List α) (i : Nat) (a d : α) (h : i < l.length) :
    (l.set i a).getD i d = a := by
  rw [List.getD_eq_getElem?_getD, List.getElem?_set_self h]
  rfl

theorem take_set_of_le {α : Type} (l : List α) (i n : Nat) (a : α) (h : n ≤ i) :
    (l.set i a).take n = l.take n := by
  rw [List.set_take]
  apply List.set_eq_of_length_le
  exact Nat.le_trans (by rw [List.length_take]; omega) h

theorem getD_eq_of_take_eq {α : Type} (l l' : List α) (n i : Nat) (d : α) (h : l.take n = l'.take n)
    (hi : i < n) : l.getD i d = l'.getD i d := by
  rw [← getD_take_of_lt l n i d hi, ← getD_take_of_lt l' n i d hi, h]

theorem range_map_getD_eq_take {α : Type} (l : List α) (d : α) :
    ∀ n, n ≤ l.length → (List.range n).map (fun i => l.getD i d) = l.take n := by
  intro n
  induction n generalizing l with
  | zero => simp
  | succ m ih =>
    intro h
    cases l with
    | nil => simp at h
    | cons a t =>
      rw [List.range_succ_eq_map]
      simp only [List.map_cons, List.map_map, List.take_succ_cons]
      have h1 : (a :: t).getD 0 d = a := rfl
      rw [h1]
      congr 1
      have : ((fun i => (a :: t).getD i d) ∘ fun x => x + 1) = fun i => t.getD i d := by
        funext i
        simp [List.getD]
      rw [this]
      exact ih t (by simpa using h)

theorem flatMap_chunks {α : Type} (m : Nat) :
    ∀ (k : Nat) (l : List α), l.length = k * m →
      (List.range k).flatMap (fun j => (l.drop (j * m)).take m) = l := by
  intro k
  induction k with
  | zero =>
    intro l h
    simp only [Nat.zero_mul] at h
    simp [List.eq_nil_of_length_eq_zero h]
  | succ p ih =>
    intro l h
    rw [List.range_succ_eq_map]
    simp only [List.flatMap_cons, List.flatMap_map]
    have h0 : (0 : Nat) * m = 0 := by ring
    rw [h0, List.drop_zero]
    have hrest : ∀ j : Nat, l.drop ((j + 1) * m) = (l.drop m).drop (j * m) := by
      intro j
      rw [List.drop_drop]
      congr 1
      ring
    have : (fun j => (l.drop ((j + 1) * m)).take m) = fun j => ((l.drop m).drop (j * m)).take m := by
      funext j
      rw [hrest]
    rw [this, ih (l.drop m) (by rw [List.length_drop, h, Nat.succ_mul]; omega)]
    exact List.take_append_drop m l

/-! ## Concrete buffers and documents used as test vectors -/

/-- A fully canonical 39-byte COF buffer: one layer (weapon code `hax`),
one direction, one frame — the layout of the spec's scenario C. -/
def buf39 : List Nat :=
  [1, 1, 1] ++ List.replicate 21 0 ++ [0] ++ [0, 0, 0] ++
  [0, 0, 0, 0, 0, 104, 97, 120, 0] ++ [0] ++ [0]

/-- A 37-byte COF buffer whose single layer carries the two-character
weapon code `ax` (field bytes `97 120 0 0`), zero frames and directions. -/
def buf37ax : List Nat :=
  [1, 0, 0] ++ List.replicate 21 0 ++ [0] ++ [0, 0, 0] ++
  [0, 0, 0, 0, 0, 97, 120, 0, 0]

/-- A document whose single layer carries the four-character weapon code
`abcd`. -/
def cofLongCode : COF :=
  { New with NumberOfLayers := 1, CofLayers := [⟨7, 2, true, false, 3, [97, 98, 99, 100]⟩] }

/-- A 25-byte buffer that is only a COF header (layer count 5); every read
after the header fails. -/
def bufHeader5 : List Nat := [5] ++ List.replicate 24 0

/-- A 25-byte buffer that is only a COF header (frame count 7). -/
def bufHeader7 : List Nat := [0, 7] ++ List.replicate 23 0

/-- An animation-metadata buffer of 256 buckets all declaring zero
records. -/
def bufZeroBlocks : List Nat := List.replicate 1024 0

/-- The 160 bytes of one animation record whose name field starts with
byte `c`: name, frame count 1, speed 256, padding, 144 event bytes. -/
def recordBytes (c : Nat) : List Nat :=
  [c, 0, 0, 0, 0, 0, 0, 0] ++ [1, 0, 0, 0] ++ [0, 1] ++ [0, 0] ++ List.replicate 144 0

/-- An animation-metadata buffer whose first bucket holds two records
(names `A` then `B`), all other buckets empty. -/
def bufTwoRecords : List Nat :=
  [2, 0, 0, 0] ++ recordBytes 65 ++ recordBytes 66 ++ List.replicate 1020 0

/-- The load state reached after the 256 zero buckets of
`bufZeroBlocks ++ [9]`: one unconsumed byte. -/
def stZeroTrailing : LoadState :=
  ⟨⟨[9], 1024⟩, 0, List.replicate (numBlocks * maxRecordsPerBlock) 0, [],
    List.replicate 256 ⟨0, []⟩⟩

/-- The store decoded from `bufZeroBlocks`. -/
def adZeroBlocks : AnimationData :=
  ⟨List.replicate (numBlocks * maxRecordsPerBlock) 0, List.replicate 256 ⟨0, []⟩, []⟩

/-! ## The bucket limit (claim C6) -/

theorem loadEvents_ne_malformed :
    ∀ (n idx : Nat) (r : BReader) (acc : List (Nat × FrameEvent)),
      loadEvents idx n r acc ≠ .error .malformedBucket := by
  intro n
  induction n with
  | zero => intro idx r acc; simp [loadEvents]
  | succ m ih =>
    intro idx r acc
    unfold loadEvents
    cases h : readBytes r 1 with
    | none => simp
    | some x => exact ih (idx + 1) x.2 _

theorem loadRecord_ne_malformed (st : LoadState) :
    loadRecord st ≠ .error .malformedBucket := by
  unfold loadRecord
  cases h1 : readBytes st.reader byteCountName with
  | none => simp
  | some x1 =>
    simp only
    split
    · simp
    · cases h2 : readBytes x1.2 4 with
      | none => simp [h2]
      | some x2 =>
        simp only [h2]
        cases h3 : readBytes x2.2 2 with
        | none => simp [h3]
        | some x3 =>
          simp only [h3]
          cases h4 : readBytes x3.2 byteCountSpeedPadding with
          | none => simp [h4]
          | some x4 =>
            simp only [h4]
            cases h5 : loadEvents 0 numEvents x4.2 [] with
            | error e =>
              simp only [h5]
              intro hcontra
              simp only [Except.error.injEq] at hcontra
              exact loadEvents_ne_malformed numEvents 0 x4.2 [] (hcontra ▸ h5)
            | ok x5 => simp [h5]

theorem loadRecords_ne_malformed :
    ∀ (n : Nat) (st : LoadState), loadRecords n st ≠ .error .malformedBucket := by
  intro n
  induction n with
  | zero => intro st; simp [loadRecords]
  | succ m ih =>
    intro st
    unfold loadRecords
    cases h1 : loadRecord st with
    | error e =>
      simp only [h1]
      intro hcontra
      simp only [Except.error.injEq] at hcontra
      exact loadRecord_ne_malformed st (hcontra ▸ h1)
    | ok x1 =>
      simp only [h1]
      cases h2 : loadRecords m x1.2 with
      | error e =>
        simp only [h2]
        intro hcontra
        simp only [Except.error.injEq] at hcontra
        exact ih x1.2 (hcontra ▸ h2)
      | ok x2 => simp [h2]

/-- C6: decoding fails with the structural-violation error whenever the
bucket about to be decoded declares a 32-bit record count above
`maxRecordsPerBlock` (67); a bucket-phase error is the `Load` result; and
a declared count of exactly 67 never triggers the malformed-bucket
error. -/
theorem c6_bucket_limit :
    (∀ (st : LoadState) (cb : List Nat) (r1 : BReader) (k : Nat),
      readBytes st.reader 4 = some (cb, r1) → maxRecordsPerBlock < asUInt32LE cb →
      loadBlocks (k + 1) st = .error .malformedBucket) ∧
    (∀ (data : List Nat) (e : ErrKind),
      loadBlocks numBlocks (initLoadState data) = .error e → Load data = .error e) ∧
    (∀ (st : LoadState) (cb : List Nat) (r1 : BReader),
      readBytes st.reader 4 = some (cb, r1) → asUInt32LE cb = maxRecordsPerBlock →
      loadBlock st ≠ .error .malformedBucket) := by
  refine ⟨fun st cb r1 k h hgt => ?_, fun data e h => ?_, fun st cb r1 h hcnt => ?_⟩
  · have hb : loadBlock st = .error .malformedBucket := by
      unfold loadBlock
      rw [h]
      simp [hgt]
    unfold loadBlocks
    rw [hb]
  · unfold Load
    rw [h]
  · unfold loadBlock
    rw [h]
    simp only [hcnt, gt_iff_lt, lt_self_iff_false, if_false]
    cases h2 : loadRecords maxRecordsPerBlock { st with reader := r1 } with
    | error e =>
      intro hcontra
      simp only [Except.error.injEq] at hcontra
      exact loadRecords_ne_malformed _ _ (hcontra ▸ h2)
    | ok x => simp

/-- Witness for C6 at concrete inputs: a declared count of 68 is rejected
as a malformed bucket, a declared count of 67 is not. -/
theorem c6_witness :
    loadBlocks 1 (initLoadState [68, 0, 0, 0]) = .error .malformedBucket ∧
    loadBlock (initLoadState [67, 0, 0, 0]) ≠ .error .malformedBucket :=
  ⟨c6_bucket_limit.1 _ [68, 0, 0, 0] ⟨[], 4⟩ 0 (by decide) (by decide),
   c6_bucket_limit.2.2 _ [67, 0, 0, 0] ⟨[], 4⟩ (by decide) (by decide)⟩

/-! ## The trailing-data check (claim C5) -/

/-- C5: after the 256 buckets, a cursor position different from the buffer
length is the fatal "unable to parse" error; and the composite decoder has
no such check — it succeeds on a buffer with an extra byte after the
priority matrix. -/
theorem c5_trailing_check :
    (∀ (data : List Nat) (st : LoadState),
      loadBlocks numBlocks (initLoadState data) = .ok st →
      st.reader.pos ≠ data.length → Load data = .error .unableToParse) ∧
    (Unmarshal (buf39 ++ [77])).2 = true := by
  refine ⟨fun data st h hne => ?_, by decide⟩
  unfold Load
  rw [h]
  simp [hne]

/-- Witness for C5: a 1025-byte metadata buffer with one leftover byte is
rejected as "unable to parse". -/
theorem c5_witness : Load (bufZeroBlocks ++ [9]) = .error .unableToParse :=
  c5_trailing_check.1 (bufZeroBlocks ++ [9]) stZeroTrailing (by rfl) (by decide)

/-! ## Partial results on error paths (claim C8) -/

/-- C8 fails as stated for the composite decoder: on this 25-byte buffer
decoding errors out, yet the returned document exposes the layer count
decoded from the header (5, where a fresh document holds 0). -/
theorem c8_counterexample :
    (Unmarshal bufHeader5).2 = false ∧ (Unmarshal bufHeader5).1.NumberOfLayers = 5 ∧
    New.NumberOfLayers = 0 := by
  decide

/-- C8 amended: the metadata decoder returns no store on error, but the
composite decoder hands back the partially populated document together
with the error. -/
theorem c8_partial_document :
    (∀ (data : List Nat) (e : ErrKind), Load data = .error e → (Load data).toOption = none) ∧
    ((Unmarshal bufHeader7).2 = false ∧ (Unmarshal bufHeader7).1.FramesPerDirection = 7) := by
  refine ⟨fun data e h => ?_, by decide, by decide⟩
  rw [h]
  rfl

/-- Witness for C8 at a concrete input: the metadata decoder's trailing
error yields no store. -/
theorem c8_witness : (Load (bufZeroBlocks ++ [9])).toOption = none :=
  c8_partial_document.1 (bufZeroBlocks ++ [9]) .unableToParse (by rfl)

/-! ## The hash journal (claim C3) -/

/-- C3 names a code bug: `hashIdx` is initialised to 0 and never
incremented, so every record's hash lands in journal slot 0.  On a buffer
with two records `A` then `B` (hashes 65 and 66), slot 0 ends up holding
the hash of the *second* record and slot 1 is never written. -/
theorem c3_hash_journal_stuck :
    (Load bufTwoRecords).toOption.map
        (fun ad => ((allRecords ad).map (fun r => hashName r.name),
          ad.hashTable.getD 0 0, ad.hashTable.getD 1 0)) =
      some ([65, 66], 66, 0) := by
  decide

/-! ## Weapon-class emission (claim C2) -/

/-- C2 fails as stated: a document whose layer carries the four-character
code `abcd` is encoded with all four characters plus the terminator — a
10-byte layer descriptor, not 9. -/
theorem c2_counterexample :
    (Marshal cofLongCode).length ≠ numHeaderBytes + numUnknownBodyBytes + numLayerBytes ∧
    Marshal cofLongCode =
      [1, 0, 0] ++ List.replicate 21 0 ++ [0] ++ [0, 0, 0] ++
      [7, 2, 1, 0, 3, 97, 98, 99, 100, 0] := by
  decide

/-- C2 amended: the encoder emits the first `min(length, 4)` characters of
the weapon-class code followed by one zero terminator (the loop breaks
only once the index exceeds 3), so a layer descriptor spans
`6 + min(length, 4)` bytes and equals 9 bytes exactly when the code has 3
characters; longer codes are truncated to 4, not 3, and shorter codes are
not padded. -/
theorem c2_weapon_truncation (l : CofLayer) :
    (marshalLayer l).length = 6 + min (weaponClassCode l.weaponClass).length 4 ∧
    (marshalLayer l).drop 5 = (weaponClassCode l.weaponClass).take 4 ++ [0] ∧
    ((weaponClassCode l.weaponClass).length = 3 → (marshalLayer l).length = numLayerBytes) := by
  refine ⟨?_, ?_, fun h3 => ?_⟩
  · simp [marshalLayer, List.length_append, List.length_take]
    omega
  · rfl
  · simp [marshalLayer, List.length_append, List.length_take, h3, numLayerBytes]

/-- Witness for C2's amended statement: a three-character code yields the
9-byte descriptor. -/
theorem c2_witness : (marshalLayer ⟨0, 0, false, false, 0, [104, 97, 120]⟩).length = numLayerBytes :=
  (c2_weapon_truncation ⟨0, 0, false, false, 0, [104, 97, 120]⟩).2.2 (by decide)

/-! ## Name-indexed lookup (claim C4) -/

theorem lookupEntries_entriesAppend (m : List (List Nat × List AnimationDataRecord))
    (k : List Nat) (r : AnimationDataRecord) (q : List Nat) :
    (lookupEntries (entriesAppend m k r) q).getD [] =
      (lookupEntries m q).getD [] ++ (if k = q then [r] else []) := by
  induction m with
  | nil =>
    by_cases hk : k = q
    · subst hk
      simp [entriesAppend, lookupEntries]
    · simp [entriesAppend, lookupEntries, hk]
  | cons hd tl ih =>
    obtain ⟨k', v⟩ := hd
    by_cases hk : k' = k
    · subst hk
      by_cases hq : k' = q
      · subst hq
        simp [entriesAppend, lookupEntries]
      · simp [entriesAppend, lookupEntries, hq]
    · by_cases hq : k' = q
      · subst hq
        have hkq : ¬k = k' := fun hh => hk hh.symm
        simp [entriesAppend, lookupEntries, hk, hkq]
      · simp [entriesAppend, lookupEntries, hk, hq, ih]

theorem loadRecord_entries (st : LoadState) (r : AnimationDataRecord) (st' : LoadState)
    (h : loadRecord st = .ok (r, st')) :
    st'.blocks = st.blocks ∧
    ∀ q, (lookupEntries st'.entries q).getD [] =
      (lookupEntries st.entries q).getD [] ++ (if r.name = q then [r] else []) := by
  unfold loadRecord at h
  split at h
  · exact absurd h (by simp)
  · split at h
    · exact absurd h (by simp)
    · split at h
      · exact absurd h (by simp)
      · split at h
        · exact absurd h (by simp)
        · split at h
          · exact absurd h (by simp)
          · split at h
            · exact absurd h (by simp)
            · simp only [Except.ok.injEq, Prod.mk.injEq] at h
              obtain ⟨hr, hst⟩ := h
              subst hr
              subst hst
              refine ⟨rfl, fun q => ?_⟩
              exact lookupEntries_entriesAppend st.entries _ _ q

theorem loadRecords_entries :
    ∀ (n : Nat) (st : LoadState) (rs : List AnimationDataRecord) (st' : LoadState),
      loadRecords n st = .ok (rs, st') →
      st'.blocks = st.blocks ∧
      ∀ q, (lookupEntries st'.entries q).getD [] =
        (lookupEntries st.entries q).getD [] ++ rs.filter (fun x => decide (x.name = q)) := by
  intro n
  induction n with
  | zero =>
    intro st rs st' h
    simp only [loadRecords, Except.ok.injEq, Prod.mk.injEq] at h
    obtain ⟨hrs, hst⟩ := h
    subst hrs
    subst hst
    simp
  | succ m ih =>
    intro st rs st' h
    unfold loadRecords at h
    cases h1 : loadRecord st with
    | error e => rw [h1] at h; exact absurd h (by simp)
    | ok x1 =>
      rw [h1] at h
      simp only at h
      cases h2 : loadRecords m x1.2 with
      | error e => rw [h2] at h; exact absurd h (by simp)
      | ok x2 =>
        rw [h2] at h
        simp only [Except.ok.injEq, Prod.mk.injEq] at h
        obtain ⟨hrs, hst⟩ := h
        subst hrs
        subst hst
        obtain ⟨hb1, he1⟩ := loadRecord_entries st x1.1 x1.2 (by rw [h1])
        obtain ⟨hb2, he2⟩ := ih x1.2 x2.1 x2.2 (by rw [h2])
        refine ⟨hb2.trans hb1, fun q => ?_⟩
        rw [he2 q, he1 q, List.filter_cons, List.append_assoc]
        by_cases hq : x1.1.name = q
        · simp [hq]
        · simp [hq]

theorem loadBlock_entries (st st' : LoadState) (h : loadBlock st = .ok st') :
    ∃ b, st'.blocks = st.blocks ++ [b] ∧
      ∀ q, (lookupEntries st'.entries q).getD [] =
        (lookupEntries st.entries q).getD [] ++
          b.records.filter (fun x => decide (x.name = q)) := by
  unfold loadBlock at h
  cases h1 : readBytes st.reader 4 with
  | none => rw [h1] at h; exact absurd h (by simp)
  | some x1 =>
    rw [h1] at h
    simp only at h
    split at h
    · exact absurd h (by simp)
    · cases h2 : loadRecords (asUInt32LE x1.1) { st with reader := x1.2 } with
      | error e => rw [h2] at h; exact absurd h (by simp)
      | ok x2 =>
        rw [h2] at h
        simp only [Except.ok.injEq] at h
        subst h
        obtain ⟨hb, he⟩ := loadRecords_entries _ _ _ _ (by rw [h2])
        exact ⟨⟨asUInt32LE x1.1, x2.1⟩, by simp [hb], he⟩

theorem loadBlocks_entries :
    ∀ (n : Nat) (st st' : LoadState), loadBlocks n st = .ok st' →
      ∃ nbs, st'.blocks = st.blocks ++ nbs ∧
        ∀ q, (lookupEntries st'.entries q).getD [] =
          (lookupEntries st.entries q).getD [] ++
            (nbs.flatMap (·.records)).filter (fun x => decide (x.name = q)) := by
  intro n
  induction n with
  | zero =>
    intro st st' h
    simp only [loadBlocks, Except.ok.injEq] at h
    subst h
    exact ⟨[], by simp, by simp⟩
  | succ m ih =>
    intro st st' h
    unfold loadBlocks at h
    cases h1 : loadBlock st with
    | error e => rw [h1] at h; exact absurd h (by simp)
    | ok st1 =>
      rw [h1] at h
      obtain ⟨b, hb1, he1⟩ := loadBlock_entries st st1 h1
      obtain ⟨nbs, hb2, he2⟩ := ih st1 st' h
      refine ⟨b :: nbs, by rw [hb2, hb1, List.append_assoc]; rfl, fun q => ?_⟩
      rw [he2 q, he1 q, List.flatMap_cons, List.filter_append, List.append_assoc]

/-- C4: for every successfully decoded store, `GetRecords name` is exactly
the sublist of all records (in file-read order across the 256 buckets)
whose canonical name is `name` — the empty list when the name was never
seen — and `GetRecord name` is the last element of that sublist, `none`
when there is none. -/
theorem c4_lookup (data : List Nat) (ad : AnimationData) (h : Load data = .ok ad) :
    ∀ name,
      GetRecords ad name = (allRecords ad).filter (fun x => decide (x.name = name)) ∧
      GetRecord ad name =
        ((allRecords ad).filter (fun x => decide (x.name = name))).getLast? := by
  unfold Load at h
  cases h1 : loadBlocks numBlocks (initLoadState data) with
  | error e => rw [h1] at h; exact absurd h (by simp)
  | ok st =>
    rw [h1] at h
    simp only at h
    by_cases hpos : st.reader.pos ≠ data.length
    · rw [if_pos hpos] at h
      exact absurd h (by simp)
    · rw [if_neg hpos] at h
      simp only [Except.ok.injEq] at h
      subst h
      obtain ⟨nbs, hb, he⟩ := loadBlocks_entries numBlocks (initLoadState data) st h1
      intro name
      have hinit : (lookupEntries (initLoadState data).entries name).getD [] = [] := rfl
      have hge : GetRecords ⟨st.hashTable, st.blocks, st.entries⟩ name =
          (allRecords ⟨st.hashTable, st.blocks, st.entries⟩).filter
            (fun x => decide (x.name = name)) := by
        show (lookupEntries st.entries name).getD [] = _
        rw [he name, hinit, List.nil_append, allRecords]
        simp only
        rw [hb]
        simp [initLoadState]
      exact ⟨hge, by rw [GetRecord, hge]⟩

/-- Witness for C4 at a concrete input: the all-empty-buckets store. -/
theorem c4_witness :
    GetRecords adZeroBlocks [72] =
        (allRecords adZeroBlocks).filter (fun x => decide (x.name = [72])) ∧
      GetRecord adZeroBlocks [72] =
        ((allRecords adZeroBlocks).filter (fun x => decide (x.name = [72]))).getLast? :=
  c4_lookup bufZeroBlocks adZeroBlocks (by rfl) [72]

/-! ## Inversion of the composite decoder -/

theorem readBytes_eq_some (r : BReader) (n : Nat) (bs : List Nat) (r' : BReader)
    (h : readBytes r n = some (bs, r')) :
    n ≤ r.remaining.length ∧ bs = r.remaining.take n ∧
    r'.remaining = r.remaining.drop n ∧ r'.pos = r.pos + n := by
  unfold readBytes at h
  split_ifs at h with hle
  · simp only [Option.some.injEq, Prod.mk.injEq] at h
    obtain ⟨h1, h2⟩ := h
    exact ⟨hle, h1.symm, by rw [← h2], by rw [← h2]⟩

theorem loadCOFLayersGo_spec :
    ∀ (k i : Nat) (c : COF) (r : BReader) (c' : COF) (r' : BReader),
      loadCOFLayersGo k i c r = (c', some r') →
      i + k ≤ c.CofLayers.length →
      9 * k ≤ r.remaining.length ∧
      r'.remaining = r.remaining.drop (9 * k) ∧
      r'.pos = r.pos + 9 * k ∧
      c'.CofLayers.length = c.CofLayers.length ∧
      c'.CofLayers.take i = c.CofLayers.take i ∧
      (∀ j, j < k → c'.CofLayers.getD (i + j) defaultCofLayer =
        mkLayer ((r.remaining.drop (9 * j)).take 9)) ∧
      (∀ j, i + k ≤ j →
        c'.CofLayers.getD j defaultCofLayer = c.CofLayers.getD j defaultCofLayer) ∧
      c'.unknownHeaderBytes = c.unknownHeaderBytes ∧
      c'.unknownBodyBytes = c.unknownBodyBytes ∧
      c'.NumberOfDirections = c.NumberOfDirections ∧
      c'.FramesPerDirection = c.FramesPerDirection ∧
      c'.NumberOfLayers = c.NumberOfLayers ∧
      c'.Speed = c.Speed ∧
      c'.AnimationFrames = c.AnimationFrames ∧
      c'.Priority = c.Priority := by
  intro k
  induction k with
  | zero =>
    intro i c r c' r' h _
    simp only [loadCOFLayersGo, Prod.mk.injEq, Option.some.injEq] at h
    obtain ⟨hc, hr⟩ := h
    subst hc
    subst hr
    simp
  | succ p ih =>
    intro i c r c' r' h hi
    unfold loadCOFLayersGo at h
    cases hr : readBytes r numLayerBytes with
    | none =>
      rw [hr] at h
      exact absurd h (by simp)
    | some x =>
      rw [hr] at h
      simp only at h
      obtain ⟨hle, hbs, hrem, hpos⟩ := readBytes_eq_some r numLayerBytes x.1 x.2 (by
        rw [hr])
      rw [show numLayerBytes = 9 from rfl] at hle hbs hrem hpos
      have hlen1 : (i + 1) + p ≤
          (c.CofLayers.set i (mkLayer x.1)).length := by
        rw [List.length_set]
        omega
      obtain ⟨ih1, ih2, ih3, ih4, ih5, ih6, ih7, ih8, ih9, ih10, ih11, ih12, ih13,
        ih14, ih15⟩ := ih (i + 1) _ x.2 c' r' h hlen1
      have hilen : i < c.CofLayers.length := by omega
      have hx2len : x.2.remaining.length = r.remaining.length - 9 := by
        rw [hrem, List.length_drop]
      refine ⟨by omega, ?_, ?_, ?_, ?_, ?_, ?_, ?_, ?_, ?_, ?_, ?_, ?_, ?_, ?_⟩
      · rw [ih2, hrem, List.drop_drop]
        congr 1
        ring
      · rw [ih3, hpos]
        ring
      · rw [ih4, List.length_set]
      · have htk : c'.CofLayers.take i = (c.CofLayers.set i (mkLayer x.1)).take i := by
          have := congrArg (fun l => l.take i) ih5
          simpa [List.take_take] using this
        rw [htk]
        exact take_set_of_le _ _ _ _ (le_refl i)
      · intro j hj
        cases j with
        | zero =>
          simp only [Nat.add_zero, Nat.mul_zero, List.drop_zero]
          have hgd : c'.CofLayers.getD i defaultCofLayer =
              (c.CofLayers.set i (mkLayer x.1)).getD i defaultCofLayer :=
            getD_eq_of_take_eq _ _ (i + 1) i _ ih5 (by omega)
          rw [hgd, getD_set_self _ _ _ _ hilen, hbs]
        | succ j' =>
          have heq := ih6 j' (by omega)
          have hidx : (i + 1) + j' = i + (j' + 1) := by omega
          rw [hidx] at heq
          rw [heq, hrem, List.drop_drop]
          congr 3
          ring
      · intro j hj
        have heq := ih7 j (by omega)
        rw [heq]
        exact getD_set_ne _ _ _ _ _ (by omega)
      · exact ih8
      · exact ih9
      · exact ih10
      · exact ih11
      · exact ih12
      · exact ih13
      · exact ih14
      · exact ih15

theorem lookupCT_mapUpdate (m : List (CompositeType × Nat)) (k : CompositeType) (v : Nat)
    (t : CompositeType) :
    lookupCT (mapUpdate m k v) t = if k = t then some v else lookupCT m t := by
  induction m with
  | nil =>
    by_cases ht : k = t
    · simp [mapUpdate, lookupCT, ht]
    · simp [mapUpdate, lookupCT, ht]
  | cons hd tl ih =>
    obtain ⟨k', v'⟩ := hd
    by_cases hk : k' = k
    · subst hk
      by_cases ht : k' = t
      · simp [mapUpdate, lookupCT, ht]
      · simp [mapUpdate, lookupCT, ht]
    · by_cases ht : k' = t
      · subst ht
        have : ¬k = k' := fun hh => hk hh.symm
        simp [mapUpdate, lookupCT, hk, this]
      · simp [mapUpdate, lookupCT, hk, ht, ih]

theorem loadCOFLayersGo_map :
    ∀ (k i : Nat) (c : COF) (r : BReader) (c' : COF) (r' : BReader),
      loadCOFLayersGo k i c r = (c', some r') →
      i + k ≤ c.CofLayers.length →
      (∀ t j, lookupCT c.CompositeLayers t = some j ↔
        (j < i ∧ (c.CofLayers.getD j defaultCofLayer).typ = t ∧
         ∀ j', j < j' → j' < i → (c.CofLayers.getD j' defaultCofLayer).typ ≠ t)) →
      (∀ t, lookupCT c.CompositeLayers t = none ↔
        (∀ j', j' < i → (c.CofLayers.getD j' defaultCofLayer).typ ≠ t)) →
      (∀ t j, lookupCT c'.CompositeLayers t = some j ↔
        (j < i + k ∧ (c'.CofLayers.getD j defaultCofLayer).typ = t ∧
         ∀ j', j < j' → j' < i + k → (c'.CofLayers.getD j' defaultCofLayer).typ ≠ t)) ∧
      (∀ t, lookupCT c'.CompositeLayers t = none ↔
        (∀ j', j' < i + k → (c'.CofLayers.getD j' defaultCofLayer).typ ≠ t)) := by
  intro k
  induction k with
  | zero =>
    intro i c r c' r' h _ hsome hnone
    simp only [loadCOFLayersGo, Prod.mk.injEq, Option.some.injEq] at h
    obtain ⟨hc, hr⟩ := h
    subst hc
    simp only [Nat.add_zero]
    exact ⟨hsome, hnone⟩
  | succ p ih =>
    intro i c r c' r' h hi hsome hnone
    unfold loadCOFLayersGo at h
    cases hr : readBytes r numLayerBytes with
    | none =>
      rw [hr] at h
      exact absurd h (by simp)
    | some x =>
      rw [hr] at h
      simp only at h
      set layer := mkLayer x.1 with hlayer
      have hilen : i < c.CofLayers.length := by omega
      have hgdi : ((c.CofLayers.set i layer).getD i defaultCofLayer) = layer :=
        getD_set_self _ _ _ _ hilen
      have hgdne : ∀ j, j ≠ i →
          ((c.CofLayers.set i layer).getD j defaultCofLayer) =
            c.CofLayers.getD j defaultCofLayer := by
        intro j hj
        exact getD_set_ne _ _ _ _ _ (fun hh => hj hh.symm)
      have hsome1 : ∀ t j,
          lookupCT (mapUpdate c.CompositeLayers layer.typ i) t = some j ↔
          (j < i + 1 ∧ ((c.CofLayers.set i layer).getD j defaultCofLayer).typ = t ∧
           ∀ j', j < j' → j' < i + 1 →
             ((c.CofLayers.set i layer).getD j' defaultCofLayer).typ ≠ t) := by
        intro t j
        rw [lookupCT_mapUpdate]
        by_cases ht : layer.typ = t
        · rw [if_pos ht]
          simp only [Option.some.injEq]
          constructor
          · intro hij
            subst hij
            refine ⟨by omega, by rw [hgdi]; exact ht, fun j' hj1 hj2 => by omega⟩
          · rintro ⟨hj1, hj2, hj3⟩
            rcases Nat.lt_or_ge j i with hlt | hge
            · exact absurd (by rw [hgdi]; exact ht) (hj3 i hlt (by omega))
            · omega
        · rw [if_neg ht, hsome t j]
          constructor
          · rintro ⟨h1, h2, h3⟩
            refine ⟨by omega, ?_, ?_⟩
            · rw [hgdne j (by omega)]
              exact h2
            · intro j' hjj hj2
              by_cases hji : j' = i
              · subst hji
                rw [hgdi]
                exact ht
              · rw [hgdne j' hji]
                exact h3 j' hjj (by omega)
          · rintro ⟨h1, h2, h3⟩
            have hji : j ≠ i := by
              intro hh
              subst hh
              rw [hgdi] at h2
              exact ht h2
            refine ⟨by omega, ?_, ?_⟩
            · rw [← hgdne j hji]
              exact h2
            · intro j' hjj hj2
              rw [← hgdne j' (by omega)]
              exact h3 j' hjj (by omega)
      have hnone1 : ∀ t,
          lookupCT (mapUpdate c.CompositeLayers layer.typ i) t = none ↔
          (∀ j', j' < i + 1 →
            ((c.CofLayers.set i layer).getD j' defaultCofLayer).typ ≠ t) := by
        intro t
        rw [lookupCT_mapUpdate]
        by_cases ht : layer.typ = t
        · rw [if_pos ht]
          constructor
          · intro hcontra
            exact absurd hcontra (by simp)
          · intro hforall
            exact absurd (by rw [hgdi]; exact ht) (hforall i (by omega))
        · rw [if_neg ht, hnone t]
          constructor
          · intro hold j' hj'
            by_cases hji : j' = i
            · subst hji
              rw [hgdi]
              exact ht
            · rw [hgdne j' hji]
              exact hold j' (by omega)
          · intro hnew j' hj'
            rw [← hgdne j' (by omega)]
            exact hnew j' (by omega)
      have hlen1 : (i + 1) + p ≤ (c.CofLayers.set i layer).length := by
        rw [List.length_set]
        omega
      have hres := ih (i + 1) _ x.2 c' r' h hlen1 hsome1 hnone1
      have hidx : i + (p + 1) = (i + 1) + p := by omega
      rw [hidx]
      exact hres

/-- Everything a successful composite decode determines, phrased over the
input bytes: the header fields, the opaque regions, the per-layer
descriptors, the event table, the priority matrix, and the last-writer-wins
characterisation of the type→layer-index map. -/
theorem unmarshal_ok (data : List Nat) (c : COF) (h : decodeComposite data = some c) :
    28 + 9 * data.getD 0 0 + data.getD 1 0 +
        data.getD 1 0 * data.getD 2 0 * data.getD 0 0 ≤ data.length ∧
    c.NumberOfLayers = Int.ofNat (data.getD 0 0) ∧
    c.FramesPerDirection = Int.ofNat (data.getD 1 0) ∧
    c.NumberOfDirections = Int.ofNat (data.getD 2 0) ∧
    c.Speed = Int.ofNat (data.getD 24 0) ∧
    c.unknownHeaderBytes = (data.drop 3).take 21 ∧
    c.unknownBodyBytes = (data.drop 25).take 3 ∧
    c.CofLayers.length = data.getD 0 0 ∧
    (∀ j, j < data.getD 0 0 → c.CofLayers.getD j defaultCofLayer =
      mkLayer ((data.drop (28 + 9 * j)).take 9)) ∧
    c.AnimationFrames = loadAnimationFrames (data.getD 1 0)
      ((data.drop (28 + 9 * data.getD 0 0)).take (data.getD 1 0)) ∧
    c.Priority = loadPriority (data.getD 2 0) (data.getD 1 0) (data.getD 0 0)
      ((data.drop (28 + 9 * data.getD 0 0 + data.getD 1 0)).take
        (data.getD 1 0 * data.getD 2 0 * data.getD 0 0)) ∧
    (∀ t j, lookupCT c.CompositeLayers t = some j ↔
      (j < data.getD 0 0 ∧ (c.CofLayers.getD j defaultCofLayer).typ = t ∧
       ∀ j', j < j' → j' < data.getD 0 0 →
         (c.CofLayers.getD j' defaultCofLayer).typ ≠ t)) ∧
    (∀ t, lookupCT c.CompositeLayers t = none ↔
      (∀ j', j' < data.getD 0 0 → (c.CofLayers.getD j' defaultCofLayer).typ ≠ t)) := by
  unfold decodeComposite Unmarshal unmarshalM at h
  simp only at h
  cases h1 : readBytes (BReader.init data) numHeaderBytes with
  | none => rw [h1] at h; exact absurd h (by simp)
  | some x25 =>
    rw [h1] at h
    simp only at h
    cases h2 : readBytes x25.2 numUnknownBodyBytes with
    | none => rw [h2] at h; exact absurd h (by simp)
    | some x3 =>
      rw [h2] at h
      simp only at h
      split at h
      · rename_i xres cOK hm
        simp only [Option.some.injEq] at h
        subst h
        split at hm
        · exact absurd hm (by simp)
        · rename_i c3 s3 hgo
          cases h4 : readBytes s3 c3.FramesPerDirection.toNat with
          | none => rw [h4] at hm; exact absurd hm (by simp)
          | some x5 =>
            rw [h4] at hm
            simp only at hm
            cases h5 : readBytes x5.2
                (c3.FramesPerDirection * c3.NumberOfDirections * c3.NumberOfLayers).toNat with
            | none => rw [h5] at hm; exact absurd hm (by simp)
            | some x6 =>
              rw [h5] at hm
              simp only [Prod.mk.injEq, and_true] at hm
              subst hm
              obtain ⟨hle1, hbs1, hrem1, hpos1⟩ := readBytes_eq_some _ _ _ _ h1
              obtain ⟨hle2, hbs2, hrem2, hpos2⟩ := readBytes_eq_some _ _ _ _ h2
              obtain ⟨hle4, hbs4, hrem4, hpos4⟩ := readBytes_eq_some _ _ _ _ h4
              obtain ⟨hle5, hbs5, hrem5, hpos5⟩ := readBytes_eq_some _ _ _ _ h5
              have hinit : (BReader.init data).remaining = data := rfl
              rw [hinit, show numHeaderBytes = 25 from rfl] at hle1 hbs1 hrem1
              rw [show numUnknownBodyBytes = 3 from rfl] at hle2 hbs2 hrem2
              have hNL : (loadHeader New x25.1).NumberOfLayers = Int.ofNat (data.getD 0 0) := by
                show Int.ofNat (x25.1.getD headerNumLayers 0) = Int.ofNat (data.getD 0 0)
                rw [hbs1, show headerNumLayers = 0 from rfl,
                  getD_take_of_lt data 25 0 0 (by omega)]
              have hNF : (loadHeader New x25.1).FramesPerDirection = Int.ofNat (data.getD 1 0) := by
                show Int.ofNat (x25.1.getD headerFramesPerDir 0) = Int.ofNat (data.getD 1 0)
                rw [hbs1, show headerFramesPerDir = 1 from rfl,
                  getD_take_of_lt data 25 1 0 (by omega)]
              have hND : (loadHeader New x25.1).NumberOfDirections = Int.ofNat (data.getD 2 0) := by
                show Int.ofNat (x25.1.getD headerNumDirs 0) = Int.ofNat (data.getD 2 0)
                rw [hbs1, show headerNumDirs = 2 from rfl,
                  getD_take_of_lt data 25 2 0 (by omega)]
              have hSP : (loadHeader New x25.1).Speed = Int.ofNat (data.getD 24 0) := by
                show Int.ofNat (x25.1.getD headerSpeed 0) = Int.ofNat (data.getD 24 0)
                rw [hbs1, show headerSpeed = 24 from rfl,
                  getD_take_of_lt data 25 24 0 (by omega)]
              have hUHB : (loadHeader New x25.1).unknownHeaderBytes = (data.drop 3).take 21 := by
                show (x25.1.drop 3).take 21 = (data.drop 3).take 21
                rw [hbs1, List.drop_take, List.take_take]
                norm_num
              have hnlt : (loadHeader New x25.1).NumberOfLayers.toNat = data.getD 0 0 := by
                rw [hNL]
                exact Int.toNat_ofNat _
              obtain ⟨hsp1, hsp2, hsp3, hsp4, hsp5, hsp6, hsp7, hsp8, hsp9, hsp10, hsp11,
                hsp12, hsp13, hsp14, hsp15⟩ := loadCOFLayersGo_spec _ 0 _ _ _ _ hgo (by simp)
              obtain ⟨hmap1, hmap2⟩ := loadCOFLayersGo_map _ 0 _ _ _ _ hgo (by simp)
                (by
                  intro t j
                  constructor
                  · intro hh
                    exact absurd hh (by simp [lookupCT])
                  · rintro ⟨hj, _⟩
                    exact absurd hj (by omega))
                (by
                  intro t
                  constructor
                  · intro _ j' hj'
                    exact absurd hj' (by omega)
                  · intro _
                    rfl)
              have hc3nl : c3.NumberOfLayers = Int.ofNat (data.getD 0 0) := by
                rw [hsp12]
                exact hNL
              have hc3nf : c3.FramesPerDirection = Int.ofNat (data.getD 1 0) := by
                rw [hsp11]
                exact hNF
              have hc3nd : c3.NumberOfDirections = Int.ofNat (data.getD 2 0) := by
                rw [hsp10]
                exact hND
              have hc3sp : c3.Speed = Int.ofNat (data.getD 24 0) := by
                rw [hsp13]
                exact hSP
              have hfpdt : c3.FramesPerDirection.toNat = data.getD 1 0 := by
                rw [hc3nf]
                exact Int.toNat_ofNat _
              have hndt : c3.NumberOfDirections.toNat = data.getD 2 0 := by
                rw [hc3nd]
                exact Int.toNat_ofNat _
              have hnlt3 : c3.NumberOfLayers.toNat = data.getD 0 0 := by
                rw [hc3nl]
                exact Int.toNat_ofNat _
              have hrem1a : x25.2.remaining = data.drop 25 := hrem1
              have hrem2a : x3.2.remaining = data.drop 28 := by
                rw [hrem2, hrem1a, List.drop_drop]
              have hrem3a : s3.remaining = data.drop (28 + 9 * data.getD 0 0) := by
                rw [hsp2, hrem2a, List.drop_drop, hnlt]
              have hrem4a : x5.2.remaining =
                  data.drop (28 + 9 * data.getD 0 0 + data.getD 1 0) := by
                rw [hrem4, hrem3a, List.drop_drop, hfpdt]
              have hbs4a : x5.1 = (data.drop (28 + 9 * data.getD 0 0)).take (data.getD 1 0) := by
                rw [hbs4, hrem3a, hfpdt]
              have hplen : (c3.FramesPerDirection * c3.NumberOfDirections *
                  c3.NumberOfLayers).toNat =
                  data.getD 1 0 * data.getD 2 0 * data.getD 0 0 := by
                rw [hc3nf, hc3nd, hc3nl]
                rfl
              have hbs5a : x6.1 =
                  (data.drop (28 + 9 * data.getD 0 0 + data.getD 1 0)).take
                    (data.getD 1 0 * data.getD 2 0 * data.getD 0 0) := by
                rw [hbs5, hrem4a, hplen]
              rw [hrem1a, List.length_drop] at hle2
              rw [hnlt, hrem2a, List.length_drop] at hsp1
              rw [hfpdt, hrem3a, List.length_drop] at hle4
              rw [hplen, hrem4a, List.length_drop] at hle5
              refine ⟨by omega, hc3nl, hc3nf, hc3nd, hc3sp, ?_, ?_, ?_, ?_, ?_, ?_, ?_, ?_⟩
              · show c3.unknownHeaderBytes = (data.drop 3).take 21
                rw [hsp8]
                exact hUHB
              · show c3.unknownBodyBytes = (data.drop 25).take 3
                rw [hsp9]
                show x3.1 = (data.drop 25).take 3
                rw [hbs2, hrem1a]
              · show c3.CofLayers.length = data.getD 0 0
                rw [hsp4]
                show (List.replicate (loadHeader New x25.1).NumberOfLayers.toNat
                  defaultCofLayer).length = data.getD 0 0
                rw [List.length_replicate, hnlt]
              · show ∀ j, j < data.getD 0 0 → c3.CofLayers.getD j defaultCofLayer =
                  mkLayer ((data.drop (28 + 9 * j)).take 9)
                intro j hj
                have hjk : j < (loadHeader New x25.1).NumberOfLayers.toNat := by
                  rw [hnlt]
                  exact hj
                have := hsp6 j hjk
                simp only [Nat.zero_add] at this
                rw [this, hrem2a, List.drop_drop]
              · show loadAnimationFrames c3.FramesPerDirection.toNat x5.1 = _
                rw [hfpdt, hbs4a]
              · show loadPriority c3.NumberOfDirections.toNat c3.FramesPerDirection.toNat
                  c3.NumberOfLayers.toNat x6.1 = _
                rw [hndt, hfpdt, hnlt3, hbs5a]
              · show ∀ t j, lookupCT c3.CompositeLayers t = some j ↔ _
                simp only [Nat.zero_add, hnlt] at hmap1
                exact hmap1
              · show ∀ t, lookupCT c3.CompositeLayers t = none ↔ _
                simp only [Nat.zero_add, hnlt] at hmap2
                exact hmap2
      · exact absurd h (by simp)

theorem getD_range_map {α : Type} (g : Nat → α) (n i : Nat) (d : α) (h : i < n) :
    ((List.range n).map g).getD i d = g i := by
  rw [List.getD_eq_getElem?_getD, List.getElem?_map, List.getElem?_range h]
  rfl

/-- The document decoded from `buf39`. -/
def cof39 : COF :=
  { unknownHeaderBytes := List.replicate 21 0
  , unknownBodyBytes := [0, 0, 0]
  , NumberOfDirections := 1
  , FramesPerDirection := 1
  , NumberOfLayers := 1
  , Speed := 0
  , CofLayers := [⟨0, 0, false, false, 0, [104, 97, 120]⟩]
  , CompositeLayers := [(0, 0)]
  , AnimationFrames := [0]
  , Priority := [[[0]]] }

/-! ## Priority matrix dimensions and layout (claim C7) -/

/-- C7: a successful composite decode yields a priority matrix of exactly
the declared dimensions — `directionCount` rows of `framesPerDirection`
rows of `layerCount` entries — with cell `(d, f, i)` holding the input
byte at offset `28 + 9·layerCount + framesPerDirection +
(d·framesPerDirection + f)·layerCount + i` (direction-major, then frame,
then layer slot). -/
theorem c7_priority_matrix (data : List Nat) (c : COF) (h : decodeComposite data = some c) :
    c.Priority.length = c.NumberOfDirections.toNat ∧
    (∀ d, d < c.NumberOfDirections.toNat →
      (c.Priority.getD d []).length = c.FramesPerDirection.toNat) ∧
    (∀ d f, d < c.NumberOfDirections.toNat → f < c.FramesPerDirection.toNat →
      ((c.Priority.getD d []).getD f []).length = c.NumberOfLayers.toNat) ∧
    (∀ d f i, d < c.NumberOfDirections.toNat → f < c.FramesPerDirection.toNat →
      i < c.NumberOfLayers.toNat →
      ((c.Priority.getD d []).getD f []).getD i 0 =
        data.getD (28 + 9 * c.NumberOfLayers.toNat + c.FramesPerDirection.toNat +
          ((d * c.FramesPerDirection.toNat + f) * c.NumberOfLayers.toNat + i)) 0) := by
  obtain ⟨hlen, hNL, hNF, hND, _, _, _, _, _, _, hPr, _, _⟩ := unmarshal_ok data c h
  have hnlt : c.NumberOfLayers.toNat = data.getD 0 0 := by rw [hNL]; exact Int.toNat_ofNat _
  have hnft : c.FramesPerDirection.toNat = data.getD 1 0 := by
    rw [hNF]; exact Int.toNat_ofNat _
  have hndt : c.NumberOfDirections.toNat = data.getD 2 0 := by
    rw [hND]; exact Int.toNat_ofNat _
  set nl := data.getD 0 0 with hnl
  set nf := data.getD 1 0 with hnf
  set nd := data.getD 2 0 with hnd
  set pb := (data.drop (28 + 9 * nl + nf)).take (nf * nd * nl) with hpb
  have hpblen : pb.length = nf * nd * nl := by
    rw [hpb, List.length_take, List.length_drop]
    omega
  have hrow : ∀ d, d < nd → c.Priority.getD d [] =
      (List.range nf).map (fun f => (pb.drop ((d * nf + f) * nl)).take nl) := by
    intro d hd
    rw [hPr, loadPriority]
    exact getD_range_map _ nd d [] hd
  have hoffb : ∀ d f, d < nd → f < nf → (d * nf + f) * nl + nl ≤ nf * nd * nl := by
    intro d f hd hf
    have h2 : (d + 1) * nf ≤ nd * nf := Nat.mul_le_mul_right nf hd
    have h3 : d * nf + f + 1 ≤ (d + 1) * nf := by rw [Nat.succ_mul]; omega
    have h4 : (d * nf + f + 1) * nl ≤ (nd * nf) * nl :=
      Nat.mul_le_mul_right nl (by omega)
    rw [Nat.succ_mul] at h4
    have h5 : nd * nf * nl = nf * nd * nl := by ring
    omega
  refine ⟨?_, ?_, ?_, ?_⟩
  · rw [hPr, loadPriority, List.length_map, List.length_range, hndt]
  · intro d hd
    rw [hndt] at hd
    rw [hrow d hd, List.length_map, List.length_range, hnft]
  · intro d f hd hf
    rw [hndt] at hd
    rw [hnft] at hf
    rw [hrow d hd, getD_range_map _ nf f [] hf, List.length_take, List.length_drop,
      hpblen, hnlt]
    have := hoffb d f hd hf
    omega
  · intro d f i hd hf hi
    rw [hndt] at hd
    rw [hnft] at hf
    rw [hnlt] at hi
    rw [hrow d hd, getD_range_map _ nf f [] hf, hnlt, hnft,
      getD_take_of_lt _ nl i 0 hi, getD_drop]
    have hidx : (d * nf + f) * nl + i < nf * nd * nl := by
      have := hoffb d f hd hf
      omega
    rw [hpb, getD_take_of_lt _ (nf * nd * nl) _ 0 hidx, getD_drop]

/-- Witness for C7 at a concrete input: the 39-byte buffer's single
priority cell is the final input byte. -/
theorem c7_witness :
    ((cof39.Priority.getD 0 []).getD 0 []).getD 0 0 =
      buf39.getD (28 + 9 * cof39.NumberOfLayers.toNat + cof39.FramesPerDirection.toNat +
        ((0 * cof39.FramesPerDirection.toNat + 0) * cof39.NumberOfLayers.toNat + 0)) 0 :=
  (c7_priority_matrix buf39 cof39 (by decide)).2.2.2 0 0 0 (by decide) (by decide) (by decide)

/-! ## The type→layer-index map (claim C9) -/

/-- C9: every entry of the type→layer-index map of a decoded document is a
valid index into the layer sequence, points at a layer of that type with
no later layer sharing the type (last-writer-wins), and the map holds an
entry for exactly the types appearing among the layers. -/
theorem c9_composite_layers (data : List Nat) (c : COF) (h : decodeComposite data = some c) :
    c.CofLayers.length = c.NumberOfLayers.toNat ∧
    (∀ j, j < c.CofLayers.length → c.CofLayers.getD j defaultCofLayer =
      mkLayer ((data.drop (28 + 9 * j)).take 9)) ∧
    (∀ t i, lookupCT c.CompositeLayers t = some i →
      i < c.CofLayers.length ∧ (c.CofLayers.getD i defaultCofLayer).typ = t ∧
      ∀ j, i < j → j < c.CofLayers.length →
        (c.CofLayers.getD j defaultCofLayer).typ ≠ t) ∧
    (∀ t, (lookupCT c.CompositeLayers t).isSome = true ↔ ∃ l ∈ c.CofLayers, l.typ = t) := by
  obtain ⟨_, hNL, _, _, _, _, _, hclen, hlayer, _, _, hmap1, hmap2⟩ := unmarshal_ok data c h
  refine ⟨?_, ?_, ?_, ?_⟩
  · rw [hclen, hNL]
    exact (Int.toNat_ofNat _).symm
  · intro j hj
    rw [hclen] at hj
    exact hlayer j hj
  · intro t i hl
    obtain ⟨h1, h2, h3⟩ := (hmap1 t i).mp hl
    rw [hclen]
    exact ⟨h1, h2, h3⟩
  · intro t
    have hex : (∃ j, j < data.getD 0 0 ∧ (c.CofLayers.getD j defaultCofLayer).typ = t) ↔
        (∃ l ∈ c.CofLayers, l.typ = t) := by
      constructor
      · rintro ⟨j, hj, hjt⟩
        have hjl : j < c.CofLayers.length := by rw [hclen]; exact hj
        refine ⟨c.CofLayers.getD j defaultCofLayer, ?_, hjt⟩
        rw [List.getD_eq_getElem _ _ hjl]
        exact List.getElem_mem hjl
      · rintro ⟨l, hl, hlt⟩
        obtain ⟨n, hn, hnl⟩ := List.mem_iff_getElem.mp hl
        refine ⟨n, by rw [← hclen]; exact hn, ?_⟩
        rw [List.getD_eq_getElem _ _ hn, hnl]
        exact hlt
    rw [← hex]
    constructor
    · intro hs
      by_contra hno
      push_neg at hno
      have : lookupCT c.CompositeLayers t = none := by
        rw [hmap2 t]
        intro j' hj'
        exact hno j' hj'
      rw [this] at hs
      exact absurd hs (by simp)
    · rintro ⟨j, hj, hjt⟩
      cases hs : lookupCT c.CompositeLayers t with
      | none =>
        have := (hmap2 t).mp hs j hj
        exact absurd hjt this
      | some v => rfl

/-- Witness for C9 at a concrete input: the decoded 39-byte buffer keeps
its single layer (length equals the declared count, layer 0 is the one
decoded from the file's descriptor) and the map entry for type 0 is layer
index 0. -/
theorem c9_witness :
    cof39.CofLayers.length = cof39.NumberOfLayers.toNat ∧
    cof39.CofLayers.getD 0 defaultCofLayer = mkLayer ((buf39.drop (28 + 9 * 0)).take 9) ∧
    (0 < cof39.CofLayers.length ∧ (cof39.CofLayers.getD 0 defaultCofLayer).typ = 0 ∧
      ∀ j, 0 < j → j < cof39.CofLayers.length →
        (cof39.CofLayers.getD j defaultCofLayer).typ ≠ 0) :=
  ⟨(c9_composite_layers buf39 cof39 (by decide)).1,
   (c9_composite_layers buf39 cof39 (by decide)).2.1 0 (by decide),
   (c9_composite_layers buf39 cof39 (by decide)).2.2.1 0 0 (by decide)⟩

/-! ## Single-byte header emission (claim C10) -/

/-- C10: the encoder casts the four counters to single bytes (reduction
modulo 256, `intToByte`); for any document from a successful decode the
four fields lie in [0, 255] (each was read from one header byte) so the
cast is the identity there, while a caller-constructed document with a
field outside [0, 255] is silently wrapped, as the concrete 300 ↦ 44 and
-1 ↦ 255 instances show. -/
theorem c10_header_bytes :
    (∀ c : COF, Marshal c =
      intToByte c.NumberOfLayers :: intToByte c.FramesPerDirection ::
        intToByte c.NumberOfDirections :: (c.unknownHeaderBytes ++ intToByte c.Speed ::
          (c.unknownBodyBytes ++ ((c.CofLayers.map marshalLayer).flatten ++
            (c.AnimationFrames.map (fun e => e % 256) ++ marshalPriority c))))) ∧
    (∀ x : Int, intToByte x = (x % 256).toNat) ∧
    (∀ (data : List Nat) (c : COF), decodeComposite data = some c →
      (∀ b ∈ data, b < 256) →
      (0 ≤ c.NumberOfLayers ∧ c.NumberOfLayers < 256 ∧
        intToByte c.NumberOfLayers = c.NumberOfLayers.toNat) ∧
      (0 ≤ c.FramesPerDirection ∧ c.FramesPerDirection < 256 ∧
        intToByte c.FramesPerDirection = c.FramesPerDirection.toNat) ∧
      (0 ≤ c.NumberOfDirections ∧ c.NumberOfDirections < 256 ∧
        intToByte c.NumberOfDirections = c.NumberOfDirections.toNat) ∧
      (0 ≤ c.Speed ∧ c.Speed < 256 ∧ intToByte c.Speed = c.Speed.toNat)) ∧
    (intToByte 300 = 44 ∧ intToByte (-1) = 255 ∧
      (Marshal { New with NumberOfLayers := 300 }).getD 0 999 = 44) := by
  refine ⟨fun c => rfl, fun x => rfl, ?_, by decide, by decide, by decide⟩
  intro data c h hb
  obtain ⟨hlen, hNL, hNF, hND, hSP, _⟩ := unmarshal_ok data c h
  have hbyte : ∀ i, i < data.length → data.getD i 0 < 256 := by
    intro i hi
    rw [List.getD_eq_getElem _ _ hi]
    exact hb _ (List.getElem_mem hi)
  have h0 : data.getD 0 0 < 256 := hbyte 0 (by omega)
  have h1 : data.getD 1 0 < 256 := hbyte 1 (by omega)
  have h2 : data.getD 2 0 < 256 := hbyte 2 (by omega)
  have h24 : data.getD 24 0 < 256 := hbyte 24 (by omega)
  refine ⟨⟨?_, ?_, ?_⟩, ⟨?_, ?_, ?_⟩, ⟨?_, ?_, ?_⟩, ⟨?_, ?_, ?_⟩⟩ <;>
    simp only [hNL, hNF, hND, hSP, intToByte, Int.ofNat_eq_coe] <;> omega

/-- Witness for C10 at a concrete input: the decoded 39-byte buffer's
counters are bytes and survive the cast unchanged. -/
theorem c10_witness :
    (0 ≤ cof39.NumberOfLayers ∧ cof39.NumberOfLayers < 256 ∧
      intToByte cof39.NumberOfLayers = cof39.NumberOfLayers.toNat) ∧
    (0 ≤ cof39.FramesPerDirection ∧ cof39.FramesPerDirection < 256 ∧
      intToByte cof39.FramesPerDirection = cof39.FramesPerDirection.toNat) ∧
    (0 ≤ cof39.NumberOfDirections ∧ cof39.NumberOfDirections < 256 ∧
      intToByte cof39.NumberOfDirections = cof39.NumberOfDirections.toNat) ∧
    (0 ≤ cof39.Speed ∧ cof39.Speed < 256 ∧ intToByte cof39.Speed = cof39.Speed.toNat) :=
  c10_header_bytes.2.2.1 buf39 cof39 (by decide) (by decide)

/-! ## Round trip (claim C1) -/

/-- The per-descriptor shape under which a layer survives the
decode→encode cycle byte for byte: selectable and transparent bytes are 0
or 1, and the weapon-class field is exactly three non-zero ASCII bytes —
the first and last not whitespace, so zero-stripping and trimming leave
the code unchanged — followed by the zero terminator. -/
def layerChunkOk (b : List Nat) : Prop :=
  b.getD 2 0 ≤ 1 ∧ b.getD 3 0 ≤ 1 ∧
  0 < b.getD 5 0 ∧ b.getD 5 0 < 128 ∧ isSpaceByte (b.getD 5 0) = false ∧
  0 < b.getD 6 0 ∧ b.getD 6 0 < 128 ∧
  0 < b.getD 7 0 ∧ b.getD 7 0 < 128 ∧ isSpaceByte (b.getD 7 0) = false ∧
  b.getD 8 0 = 0

instance : DecidablePred layerChunkOk := fun b => by
  unfold layerChunkOk
  infer_instance

/-- Every layer descriptor of the buffer satisfies `layerChunkOk`. -/
def cofCanonicalLayers (data : List Nat) : Prop :=
  ∀ i, i < data.getD 0 0 → layerChunkOk ((data.drop (28 + 9 * i)).take 9)

instance : DecidablePred cofCanonicalLayers := fun _data =>
  Nat.decidableBallLT _ _

/-- The buffer ends exactly at the priority matrix: no trailing bytes. -/
def cofExactLength (data : List Nat) : Prop :=
  data.length = 28 + 9 * data.getD 0 0 + data.getD 1 0 +
    data.getD 1 0 * data.getD 2 0 * data.getD 0 0

instance : DecidablePred cofExactLength := fun data => by
  unfold cofExactLength
  infer_instance

/-- Decoded weapon-class codes of a document, each at most 3 ASCII
characters (the hypothesis of the round-trip claim as stated). -/
def weaponCodesAtMost3Ascii (c : COF) : Bool :=
  c.CofLayers.all fun l => l.weaponClass.length ≤ 3 && l.weaponClass.all (· < 128)

theorem list_len9 (l : List Nat) (h : l.length = 9) :
    ∃ b0 b1 b2 b3 b4 b5 b6 b7 b8, l = [b0, b1, b2, b3, b4, b5, b6, b7, b8] := by
  cases l with
  | nil => simp at h
  | cons b0 l =>
  cases l with
  | nil => simp at h
  | cons b1 l =>
  cases l with
  | nil => simp at h
  | cons b2 l =>
  cases l with
  | nil => simp at h
  | cons b3 l =>
  cases l with
  | nil => simp at h
  | cons b4 l =>
  cases l with
  | nil => simp at h
  | cons b5 l =>
  cases l with
  | nil => simp at h
  | cons b6 l =>
  cases l with
  | nil => simp at h
  | cons b7 l =>
  cases l with
  | nil => simp at h
  | cons b8 l =>
  cases l with
  | nil => exact ⟨b0, b1, b2, b3, b4, b5, b6, b7, b8, rfl⟩
  | cons b9 l => simp at h

theorem marshalLayer_mkLayer (b : List Nat) (h9 : b.length = 9)
    (hok : layerChunkOk b) (hlt : ∀ x ∈ b, x < 256) :
    marshalLayer (mkLayer b) = b := by
  obtain ⟨b0, b1, b2, b3, b4, b5, b6, b7, b8, rfl⟩ := list_len9 b h9
  obtain ⟨h2, h3, h5, h5a, h5s, h6, h6a, h7, h7a, h7s, h8⟩ := hok
  replace h2 : b2 ≤ 1 := h2
  replace h3 : b3 ≤ 1 := h3
  replace h5 : 0 < b5 := h5
  replace h5s : isSpaceByte b5 = false := h5s
  replace h6 : 0 < b6 := h6
  replace h7 : 0 < b7 := h7
  replace h7s : isSpaceByte b7 = false := h7s
  replace h8 : b8 = 0 := h8
  subst h8
  have hb0 : b0 < 256 := hlt b0 (by simp)
  have hb4 : b4 < 256 := hlt b4 (by simp)
  have hne5 : ¬b5 = 0 := by omega
  have hne6 : ¬b6 = 0 := by omega
  have hne7 : ¬b7 = 0 := by omega
  have hw : mkLayer [b0, b1, b2, b3, b4, b5, b6, b7, 0] =
      { typ := b0, shadow := b1, selectable := b2 > 0, transparent := b3 > 0,
        drawEffect := b4, weaponClass := [b5, b6, b7] } := by
    unfold mkLayer WeaponClassFromString trimSpaceBytes
    simp [layerType, layerShadow, layerSelectable, layerTransparent, layerDrawEffect,
      layerWeaponClass, List.getD, hne5, hne6, hne7, List.dropWhile, h5s, h7s]
  rw [hw]
  unfold marshalLayer weaponClassCode
  simp only [List.take]
  have hm0 : b0 % 256 = b0 := Nat.mod_eq_of_lt hb0
  have hm4 : b4 % 256 = b4 := Nat.mod_eq_of_lt hb4
  have hsel : (if b2 > 0 then 1 else 0) = b2 := by
    rcases (by omega : b2 = 0 ∨ b2 = 1) with hh | hh <;> simp [hh]
  have htrn : (if b3 > 0 then 1 else 0) = b3 := by
    rcases (by omega : b3 = 0 ∨ b3 = 1) with hh | hh <;> simp [hh]
  simp [hm0, hm4, hsel, htrn]

theorem flatMap_congr_range {α : Type} (n : Nat) (f g : Nat → List α)
    (h : ∀ j, j < n → f j = g j) :
    (List.range n).flatMap f = (List.range n).flatMap g := by
  rw [List.flatMap_def, List.flatMap_def]
  congr 1
  apply List.map_congr_left
  intro a ha
  exact h a (List.mem_range.mp ha)

theorem flatMap_range_getD (m : Nat) :
    ∀ (k : Nat) (l : List Nat), l.length = k * m →
      (List.range k).flatMap
        (fun j => (List.range m).map fun i => l.getD (j * m + i) 0) = l := by
  intro k
  induction k with
  | zero =>
    intro l h
    simp only [Nat.zero_mul] at h
    simp [List.eq_nil_of_length_eq_zero h]
  | succ p ih =>
    intro l h
    rw [List.range_succ_eq_map]
    simp only [List.flatMap_cons, List.flatMap_map]
    have hml : m ≤ l.length := by rw [h, Nat.succ_mul]; omega
    have hhead : (List.range m).map (fun i => l.getD (0 * m + i) 0) = l.take m := by
      have hfun : (fun i => l.getD (0 * m + i) 0) = fun i => l.getD i 0 := by
        funext i
        rw [Nat.zero_mul, Nat.zero_add]
      rw [hfun]
      exact range_map_getD_eq_take l 0 m hml
    have htail : (fun j => (List.range m).map fun i => l.getD ((j + 1) * m + i) 0) =
        fun j => (List.range m).map fun i => (l.drop m).getD (j * m + i) 0 := by
      funext j
      apply List.map_congr_left
      intro i _
      rw [getD_drop]
      congr 1
      rw [Nat.succ_mul]
      omega
    rw [hhead, htail, ih (l.drop m) (by rw [List.length_drop, h, Nat.succ_mul]; omega)]
    exact List.take_append_drop m l

theorem take3_eq (l : List Nat) (h : 3 ≤ l.length) :
    l.take 3 = [l.getD 0 0, l.getD 1 0, l.getD 2 0] := by
  cases l with
  | nil => simp at h
  | cons a l =>
  cases l with
  | nil => simp at h
  | cons b l =>
  cases l with
  | nil => simp at h
  | cons c l => rfl

theorem drop_take1 (l : List Nat) (n : Nat) (h : n < l.length) :
    (l.drop n).take 1 = [l.getD n 0] := by
  rw [List.drop_eq_getElem_cons h]
  rw [List.getD_eq_getElem l 0 h]
  rfl

/-- C1 amended: re-encoding a decoded document reproduces the buffer byte
for byte provided the buffer is made of bytes, has no trailing data after
the priority matrix, and every layer descriptor is canonical
(`layerChunkOk`): flag bytes 0/1 and a weapon-class field of exactly three
non-zero non-boundary-whitespace ASCII characters plus the zero
terminator. -/
theorem c1_round_trip (data : List Nat) (c : COF)
    (h : decodeComposite data = some c)
    (hbytes : ∀ b ∈ data, b < 256)
    (hlen : cofExactLength data)
    (hcanon : cofCanonicalLayers data) :
    Marshal c = data := by
  obtain ⟨hbound, hNL, hNF, hND, hSP, hUHB, hUBB, hclen, hlayer, hAF, hPr, _, _⟩ :=
    unmarshal_ok data c h
  replace hlen : data.length = 28 + 9 * data.getD 0 0 + data.getD 1 0 +
      data.getD 1 0 * data.getD 2 0 * data.getD 0 0 := hlen
  set nl := data.getD 0 0 with hnl0
  set nf := data.getD 1 0 with hnf0
  set nd := data.getD 2 0 with hnd0
  have hbyte : ∀ i, i < data.length → data.getD i 0 < 256 := by
    intro i hi
    rw [List.getD_eq_getElem _ _ hi]
    exact hbytes _ (List.getElem_mem hi)
  have hnlb : nl < 256 := hbyte 0 (by omega)
  have hnfb : nf < 256 := hbyte 1 (by omega)
  have hndb : nd < 256 := hbyte 2 (by omega)
  have hspb : data.getD 24 0 < 256 := hbyte 24 (by omega)
  have hA : intToByte c.NumberOfLayers = nl := by
    rw [hNL]
    simp only [intToByte, Int.ofNat_eq_coe]
    omega
  have hB : intToByte c.FramesPerDirection = nf := by
    rw [hNF]
    simp only [intToByte, Int.ofNat_eq_coe]
    omega
  have hC : intToByte c.NumberOfDirections = nd := by
    rw [hND]
    simp only [intToByte, Int.ofNat_eq_coe]
    omega
  have hSPb : intToByte c.Speed = data.getD 24 0 := by
    rw [hSP]
    simp only [intToByte, Int.ofNat_eq_coe]
    omega
  have hnlt : c.NumberOfLayers.toNat = nl := by rw [hNL]; exact Int.toNat_ofNat _
  have hnft : c.FramesPerDirection.toNat = nf := by rw [hNF]; exact Int.toNat_ofNat _
  have hndt : c.NumberOfDirections.toNat = nd := by rw [hND]; exact Int.toNat_ofNat _
  have hflat : (c.CofLayers.map marshalLayer).flatten = (data.drop 28).take (9 * nl) := by
    have hexp : c.CofLayers = (List.range nl).map
        (fun j => mkLayer ((data.drop (28 + 9 * j)).take 9)) := by
      apply List.ext_getElem
      · rw [hclen, List.length_map, List.length_range]
      · intro j hj1 hj2
        rw [← List.getD_eq_getElem c.CofLayers defaultCofLayer hj1]
        rw [List.getElem_map, List.getElem_range]
        exact hlayer j (hclen ▸ hj1)
    have hstage0 : (((List.range nl).map
        (fun j => mkLayer ((data.drop (28 + 9 * j)).take 9))).map marshalLayer).flatten =
        (List.range nl).flatMap
          (fun j => marshalLayer (mkLayer ((data.drop (28 + 9 * j)).take 9))) := by
      rw [List.map_map, ← List.flatMap_def]
      rfl
    have hstage1 : (List.range nl).flatMap
        (fun j => marshalLayer (mkLayer ((data.drop (28 + 9 * j)).take 9))) =
        (List.range nl).flatMap (fun j => (data.drop (28 + 9 * j)).take 9) := by
      apply flatMap_congr_range
      intro j hj
      apply marshalLayer_mkLayer
      · rw [List.length_take, List.length_drop]
        omega
      · exact hcanon j hj
      · intro x hx
        exact hbytes x (List.mem_of_mem_drop (List.mem_of_mem_take hx))
    have hstage2 : (List.range nl).flatMap (fun j => (data.drop (28 + 9 * j)).take 9) =
        (List.range nl).flatMap
          (fun j => (((data.drop 28).take (9 * nl)).drop (j * 9)).take 9) := by
      apply flatMap_congr_range
      intro j hj
      rw [List.drop_take, List.drop_drop, List.take_take]
      have h1 : min 9 (9 * nl - j * 9) = 9 := by omega
      have h2 : 28 + j * 9 = 28 + 9 * j := by ring
      rw [h1, h2]
    have hstage3 : (List.range nl).flatMap
        (fun j => (((data.drop 28).take (9 * nl)).drop (j * 9)).take 9) =
        (data.drop 28).take (9 * nl) := by
      apply flatMap_chunks 9 nl ((data.drop 28).take (9 * nl))
      rw [List.length_take, List.length_drop]
      have h9c : 9 * nl = nl * 9 := by ring
      omega
    rw [hexp]
    exact hstage0.trans (hstage1.trans (hstage2.trans hstage3))
  have hframes : c.AnimationFrames.map (fun e => e % 256) =
      (data.drop (28 + 9 * nl)).take nf := by
    rw [hAF]
    have hafdlen : ((data.drop (28 + 9 * nl)).take nf).length = nf := by
      rw [List.length_take, List.length_drop]
      omega
    have hAF2 : loadAnimationFrames nf ((data.drop (28 + 9 * nl)).take nf) =
        (data.drop (28 + 9 * nl)).take nf := by
      unfold loadAnimationFrames
      rw [range_map_getD_eq_take _ 0 nf (by rw [hafdlen]),
        List.take_take]
      congr 1
      omega
    rw [hAF2]
    have hmem : ∀ x ∈ (data.drop (28 + 9 * nl)).take nf, x % 256 = x := by
      intro x hx
      exact Nat.mod_eq_of_lt (hbytes x (List.mem_of_mem_drop (List.mem_of_mem_take hx)))
    calc ((data.drop (28 + 9 * nl)).take nf).map (fun e => e % 256)
        = ((data.drop (28 + 9 * nl)).take nf).map id := List.map_congr_left hmem
      _ = (data.drop (28 + 9 * nl)).take nf := List.map_id _
  have hpblen : ((data.drop (28 + 9 * nl + nf)).take (nf * nd * nl)).length =
      nf * nd * nl := by
    rw [List.length_take, List.length_drop]
    omega
  have hoffb : ∀ d f, d < nd → f < nf → (d * nf + f) * nl + nl ≤ nf * nd * nl := by
    intro d f hd hf
    have h2 : (d + 1) * nf ≤ nd * nf := Nat.mul_le_mul_right nf hd
    have h3 : d * nf + f + 1 ≤ (d + 1) * nf := by rw [Nat.succ_mul]; omega
    have h4 : (d * nf + f + 1) * nl ≤ (nd * nf) * nl :=
      Nat.mul_le_mul_right nl (by omega)
    rw [Nat.succ_mul] at h4
    have h5 : nd * nf * nl = nf * nd * nl := by ring
    omega
  have hprio : marshalPriority c = (data.drop (28 + 9 * nl + nf)).take (nf * nd * nl) := by
    unfold marshalPriority
    rw [hndt, hnft, hnlt]
    have hcell : ∀ d f i, d < nd → f < nf → i < nl →
        ((c.Priority.getD d []).getD f []).getD i 0 =
          ((data.drop (28 + 9 * nl + nf)).take (nf * nd * nl)).getD
            ((d * nf + f) * nl + i) 0 := by
      intro d f i hd hf hi
      rw [hPr, loadPriority, getD_range_map _ nd d [] hd, getD_range_map _ nf f [] hf,
        getD_take_of_lt _ nl i 0 hi, getD_drop]
    have hldlen : ∀ d, d < nd → ((((data.drop (28 + 9 * nl + nf)).take (nf * nd * nl)).drop
        (d * (nf * nl))).take (nf * nl)).length = nf * nl := by
      intro d hd
      rw [List.length_take, List.length_drop, hpblen]
      have hstep : (d + 1) * (nf * nl) ≤ nd * (nf * nl) :=
        Nat.mul_le_mul_right (nf * nl) hd
      rw [Nat.succ_mul] at hstep
      have hring : nf * nd * nl = nd * (nf * nl) := by ring
      omega
    have hq1 : (List.range nd).flatMap (fun direction => (List.range nf).flatMap
        (fun frame => (List.range nl).map fun i =>
          ((c.Priority.getD direction []).getD frame []).getD i 0 % 256)) =
        (List.range nd).flatMap (fun d => (List.range nf).flatMap
          (fun f => (List.range nl).map fun i =>
            ((((data.drop (28 + 9 * nl + nf)).take (nf * nd * nl)).drop
              (d * (nf * nl))).take (nf * nl)).getD (f * nl + i) 0)) := by
      apply flatMap_congr_range
      intro d hd
      apply flatMap_congr_range
      intro f hf
      apply List.map_congr_left
      intro i hi0
      have hi : i < nl := List.mem_range.mp hi0
      rw [hcell d f i hd hf hi]
      have hidx : (d * nf + f) * nl + i <
          ((data.drop (28 + 9 * nl + nf)).take (nf * nd * nl)).length := by
        rw [hpblen]
        have := hoffb d f hd hf
        omega
      have hval : ((data.drop (28 + 9 * nl + nf)).take (nf * nd * nl)).getD
          ((d * nf + f) * nl + i) 0 < 256 := by
        rw [List.getD_eq_getElem _ _ hidx]
        exact hbytes _
          (List.mem_of_mem_drop (List.mem_of_mem_take (List.getElem_mem hidx)))
      rw [Nat.mod_eq_of_lt hval]
      have hfb : f * nl + i < nf * nl := by
        have h2 : (f + 1) * nl ≤ nf * nl := Nat.mul_le_mul_right nl hf
        rw [Nat.succ_mul] at h2
        omega
      rw [getD_take_of_lt _ (nf * nl) _ 0 hfb, getD_drop]
      congr 1
      ring
    have hq2 : (List.range nd).flatMap (fun d => (List.range nf).flatMap
        (fun f => (List.range nl).map fun i =>
          ((((data.drop (28 + 9 * nl + nf)).take (nf * nd * nl)).drop
            (d * (nf * nl))).take (nf * nl)).getD (f * nl + i) 0)) =
        (List.range nd).flatMap
          (fun d => (((data.drop (28 + 9 * nl + nf)).take (nf * nd * nl)).drop
            (d * (nf * nl))).take (nf * nl)) := by
      apply flatMap_congr_range
      intro d hd
      exact flatMap_range_getD nl nf _ (hldlen d hd)
    have hq3 : (List.range nd).flatMap
        (fun d => (((data.drop (28 + 9 * nl + nf)).take (nf * nd * nl)).drop
          (d * (nf * nl))).take (nf * nl)) =
        (data.drop (28 + 9 * nl + nf)).take (nf * nd * nl) := by
      apply flatMap_chunks (nf * nl) nd
      rw [hpblen]
      ring
    exact hq1.trans (hq2.trans hq3)
  have hd3 : data.take 3 = [nl, nf, nd] := take3_eq data (by omega)
  have hd24 : (data.drop 24).take 1 = [data.getD 24 0] := drop_take1 data 24 (by omega)
  have e1 : data.drop 3 = (data.drop 3).take 21 ++ data.drop 24 := by
    conv_lhs => rw [← List.take_append_drop 21 (data.drop 3)]
    rw [List.drop_drop]
  have e2 : data.drop 24 = (data.drop 24).take 1 ++ data.drop 25 := by
    conv_lhs => rw [← List.take_append_drop 1 (data.drop 24)]
    rw [List.drop_drop]
  have e3 : data.drop 25 = (data.drop 25).take 3 ++ data.drop 28 := by
    conv_lhs => rw [← List.take_append_drop 3 (data.drop 25)]
    rw [List.drop_drop]
  have e4 : data.drop 28 = (data.drop 28).take (9 * nl) ++ data.drop (28 + 9 * nl) := by
    conv_lhs => rw [← List.take_append_drop (9 * nl) (data.drop 28)]
    rw [List.drop_drop]
  have e5 : data.drop (28 + 9 * nl) =
      (data.drop (28 + 9 * nl)).take nf ++ data.drop (28 + 9 * nl + nf) := by
    conv_lhs => rw [← List.take_append_drop nf (data.drop (28 + 9 * nl))]
    rw [List.drop_drop]
  have e6 : data.drop (28 + 9 * nl + nf) =
      (data.drop (28 + 9 * nl + nf)).take (nf * nd * nl) ++
        data.drop (28 + 9 * nl + nf + nf * nd * nl) := by
    conv_lhs => rw [← List.take_append_drop (nf * nd * nl) (data.drop (28 + 9 * nl + nf))]
    rw [List.drop_drop]
  have e7 : data.drop (28 + 9 * nl + nf + nf * nd * nl) = [] :=
    List.drop_eq_nil_of_le (by omega)
  show intToByte c.NumberOfLayers :: intToByte c.FramesPerDirection ::
    intToByte c.NumberOfDirections :: (c.unknownHeaderBytes ++ intToByte c.Speed ::
      (c.unknownBodyBytes ++ ((c.CofLayers.map marshalLayer).flatten ++
        (c.AnimationFrames.map (fun e => e % 256) ++ marshalPriority c)))) = data
  rw [hA, hB, hC, hUHB, hSPb, hUBB, hflat, hframes, hprio]
  conv_rhs => rw [← List.take_append_drop 3 data, e1, e2, e3, e4, e5, e6, e7]
  rw [hd3, hd24]
  simp only [List.cons_append, List.nil_append, List.append_nil, List.append_assoc]

/-- C1 fails as stated: `buf37ax` decodes successfully, its only layer's
weapon-class code (`ax`) has at most 3 ASCII characters, yet re-encoding
drops a byte (the encoder never pads the 2-character code back to the
4-byte field), so the round trip does not reproduce the buffer. -/
theorem c1_counterexample :
    (decodeComposite buf37ax).isSome = true ∧
    (decodeComposite buf37ax).map weaponCodesAtMost3Ascii = some true ∧
    (decodeComposite buf37ax).map Marshal ≠ some buf37ax := by
  refine ⟨by decide, by decide, by decide⟩

/-- Witness for C1's amended statement: the canonical 39-byte buffer
round-trips byte for byte. -/
theorem c1_witness : Marshal cof39 = buf39 :=
  c1_round_trip buf39 cof39 (by decide) (by decide) (by decide) (by decide)

end Cof

